import Mathlib

/-!
# Job control of the simple shell (`jobs.c`, `shell.c`)

A shallow embedding of the job table of `jobs.c` and of the operations the
shell performs on it, and of the functions of `shell.c` that run a command or
a pipeline.  The global array `jobs` (with its length `njobmax`)
becomes a `List Job` that is passed explicitly; `njobmax` is the length of
the list.  The dynamically allocated array `proc` of a job (with its length
`nproc`) becomes a `List Proc`; a `NULL` pointer is the empty list for `proc`
and `none` for `command`.  C `int`s that hold identifiers, states and slot
numbers are `Int`; a wait status, of which the system reports 16 bits, is a
`Nat`.  A failed `assert` and a read outside an array are explicit faults.
System calls whose results come from the operating system (`waitpid`,
`tcgetattr`, `getpgrp`, `fork`) take those results as arguments, and the calls
that act on the outside world (`kill`, `printf`, `tcsetpgrp`, `tcsetattr`,
`setpgid`) are recorded in a list of effects.
-/

namespace SimpleShell

/-! ## Constants of `shell.h` and of `<sys/wait.h>` -/

/-- Modelled from the spec: `shell.h` is not among the sources.  Slot of the
foreground job (`allocate_job`: "foreground request always returns slot 0"). -/
def FG : Int := 0

/-- Modelled from the spec: `shell.h` is not among the sources.  First slot of
the background jobs ("first free slot at index ≥1"). -/
def BG : Int := 1

/-- Modelled from the spec: `shell.h` is not among the sources.  `watchjobs`
indexes its table of labels `{"running", "suspended"}` with `state - 1`, which
fixes `RUNNING` to 1. -/
def RUNNING : Int := 1

/-- Modelled from the spec: `shell.h` is not among the sources.  `watchjobs`
indexes its table of labels `{"running", "suspended"}` with `state - 1`, which
fixes `STOPPED` to 2. -/
def STOPPED : Int := 2

/-- Modelled from the spec: `shell.h` is not among the sources.  The state of
a job that may be reclaimed; it is the value that `calloc` and `memset` leave
in a free slot, which is why `resumejob` and `killjob` can test a slot with
`state == FINISHED` alone. -/
def FINISHED : Int := 0

/-- Modelled from the spec: `shell.h` is not among the sources.  The filter of
`watchjobs` that selects every job. -/
def ALL : Int := -1

/-- The macro `WIFSTOPPED` of `<sys/wait.h>`: `(status & 0xff) == 0x7f`. -/
def WIFSTOPPED (status : Nat) : Bool := status % 256 == 127

/-- The macro `WIFCONTINUED` of `<sys/wait.h>`: `status == 0xffff`. -/
def WIFCONTINUED (status : Nat) : Bool := status == 65535

/-- The macro `WEXITSTATUS` of `<sys/wait.h>`: `(status & 0xff00) >> 8`. -/
def WEXITSTATUS (status : Nat) : Nat := status / 256 % 256

/-- The macro `WTERMSIG` of `<sys/wait.h>`: `status & 0x7f`. -/
def WTERMSIG (status : Nat) : Nat := status % 128

/-- The macro `WIFSIGNALED` of `<sys/wait.h>`:
`((signed char)((status & 0x7f) + 1) >> 1) > 0`. -/
def WIFSIGNALED (status : Nat) : Bool := status % 128 != 0 && status % 128 != 127

/-! ## Data model -/

/-- The record `proc_t`. -/
structure Proc where
  pid : Int
  state : Int
  exitcode : Int
  deriving DecidableEq, Repr

/-- The record `job_t`.  `nproc` is the length of `proc`; `tmodes` stands for
the saved `struct termios`. -/
structure Job where
  pgid : Int
  proc : List Proc
  tmodes : Nat
  state : Int
  command : Option String
  deriving DecidableEq, Repr

/-- A job record filled with zero bytes (`calloc`, `memset(.., 0, ..)`). -/
def Job.zero : Job :=
  { pgid := 0, proc := [], tmodes := 0, state := 0, command := none }

/-- How a run of the program can go wrong. -/
inductive Fault where
  | assertion
  | outOfBounds
  deriving DecidableEq, Repr

/-- Signals the job table sends. -/
inductive Signal where
  | SIGTERM
  | SIGCONT
  deriving DecidableEq, Repr

/-- Calls that act on the world outside the job table. -/
inductive Effect where
  | kill (target : Int) (sig : Signal)
  | print (line : String)
  | setfgpgrp (pgid : Int)
  | tcsetattr (modes : Nat)
  deriving DecidableEq, Repr

/-- The global variables of `jobs.c`, with the process group of the shell
(`getpgrp()`). -/
structure Shell where
  jobs : List Job
  shell_tmodes : Nat
  shell_pgrp : Int
  deriving DecidableEq, Repr

deriving instance DecidableEq for Except

/-- Read of `jobs[j]`. -/
def jobAt (jobs : List Job) (j : Int) : Except Fault Job :=
  if j < 0 then .error .outOfBounds
  else match jobs[j.toNat]? with
    | some job => .ok job
    | none => .error .outOfBounds

/-! ## `sigchld_handler` -/

/-- The state a wait status stands for (lines 46-53). -/
def newstate (status : Nat) : Int :=
  if WIFSTOPPED status then STOPPED
  else if WIFCONTINUED status then RUNNING
  else FINISHED

/-- The update of the process found (lines 46-53): the raw status is stored
when the process has finished. -/
def markproc (p : Proc) (status : Nat) : Proc :=
  if WIFSTOPPED status then { p with state := STOPPED }
  else if WIFCONTINUED status then { p with state := RUNNING }
  else { p with state := FINISHED, exitcode := status }

/-- The search of lines 40-44: the updated process array, when a process with
this `pid` is found (the first one). -/
def findproc (mark : Proc → Proc) (pid : Int) : List Proc → Option (List Proc × Int)
  | [] => none
  | p :: ps =>
    if p.pid = pid then some (mark p :: ps, (mark p).state)
    else match findproc mark pid ps with
      | some (ps', s) => some (p :: ps', s)
      | none => none

/-- The check of lines 55-60: every process has the state `s`. -/
def same (procs : List Proc) (s : Int) : Bool :=
  procs.all (fun p => p.state == s)

/-- Lines 40-69 for one job: `none` when the job has no process `pid`. -/
def updatejob (mark : Proc → Proc) (job : Job) (pid : Int) : Option Job :=
  match findproc mark pid job.proc with
  | none => none
  | some (procs, s) =>
    some { job with proc := procs, state := if same procs s then s else job.state }

/-- The search of lines 34-71 for one status change. -/
def reap (pid : Int) (status : Nat) : List Job → List Job
  | [] => []
  | job :: rest =>
    if job.pgid = 0 then job :: reap pid status rest
    else match updatejob (fun p => markproc p status) job pid with
      | some job' => job' :: rest
      | none => job :: reap pid status rest

/-- The handler: `events` are the successive results `(pid, status)` of
`waitpid`; the loop ends at the first result that is not positive, and at the
end of the list. -/
def sigchld_handler (jobs : List Job) : List (Int × Nat) → List Job
  | [] => jobs
  | (pid, status) :: rest =>
    if pid > 0 then sigchld_handler (reap pid status jobs) rest else jobs

/-! ## Job table management -/

/-- Lines 77-80: the exit code of the last process of the job.  With no
process the read is outside the array. -/
def exitcode (job : Job) : Except Fault Int :=
  match job.proc.getLast? with
  | some p => .ok p.exitcode
  | none => .error .outOfBounds

/-- The loop of lines 84-86 over the slots from `j` on. -/
def scanfree : List Job → Int → Option Int
  | [], _ => none
  | job :: rest, j => if job.pgid = 0 then some j else scanfree rest (j + 1)

/-- Lines 82-92: the slot found and the table, which has one more zeroed slot
when no slot from `BG` on is free. -/
def allocjob (jobs : List Job) : Int × List Job :=
  match scanfree (jobs.drop 1) BG with
  | some j => (j, jobs)
  | none => ((jobs.length : Int), jobs ++ [Job.zero])

/-- Write of `jobs[j]`. -/
def setJob (jobs : List Job) (j : Int) (job : Job) : Except Fault (List Job) :=
  if 0 ≤ j ∧ j.toNat < jobs.length then .ok (jobs.set j.toNat job)
  else .error .outOfBounds

/-- Lines 100-111. -/
def addjob (sh : Shell) (pgid : Int) (bg : Int) : Except Fault (Int × Shell) :=
  let r := if bg ≠ 0 then allocjob sh.jobs else (FG, sh.jobs)
  match setJob r.2 r.1
      { pgid := pgid, state := RUNNING, command := none, proc := [],
        tmodes := sh.shell_tmodes } with
  | .ok jobs => .ok (r.1, { sh with jobs := jobs })
  | .error e => .error e

/-- Lines 113-121. -/
def deljob (job : Job) : Except Fault Job :=
  if job.state = FINISHED then
    .ok { job with pgid := 0, command := none, proc := [] }
  else .error .assertion

/-- Lines 123-127. -/
def movejob (jobs : List Job) (src dst : Int) : Except Fault (List Job) :=
  match jobAt jobs dst with
  | .error e => .error e
  | .ok target =>
    if target.pgid ≠ 0 then .error .assertion
    else match jobAt jobs src with
      | .error e => .error e
      | .ok job =>
        match setJob jobs dst job with
        | .error e => .error e
        | .ok jobs1 => setJob jobs1 src Job.zero

/-- Modelled from the spec: `strapp` is declared in `shell.h` and defined
outside the sources given; it appends `src` to the string `*dstp`, which it
allocates when `*dstp` is `NULL` ("appends the process's rendered argument
vector to the job's command text"). -/
def strapp (dst : Option String) (src : String) : Option String :=
  match dst with
  | none => some src
  | some d => some (d ++ src)

/-- Lines 129-137; `argv` holds the tokens before the terminating `NULL`.
With no token `strapp` would read through a null pointer. -/
def mkcommand (cmd : Option String) : List String → Except Fault (Option String)
  | [] => .error .outOfBounds
  | a :: as =>
    let cmd1 := if cmd.isSome then strapp cmd " | " else cmd
    .ok (as.foldl (fun c t => strapp (strapp c " ") t) (strapp cmd1 a))

/-- Lines 139-150 (with `allocproc`, lines 94-98). -/
def addproc (jobs : List Job) (j : Int) (pid : Int) (argv : List String) :
    Except Fault (List Job) :=
  if ¬ j < jobs.length then .error .assertion
  else match jobAt jobs j with
    | .error e => .error e
    | .ok job =>
      match mkcommand job.command argv with
      | .error e => .error e
      | .ok cmd =>
        setJob jobs j
          { job with
            proc := job.proc ++ [{ pid := pid, state := RUNNING, exitcode := -1 }],
            command := cmd }

/-- Lines 154-179: the state of the job, the value of `*statusp` (which is
`status` when the job has not finished) and the table. -/
def jobstate (jobs : List Job) (j : Int) (status : Int) :
    Except Fault (Int × Int × List Job) :=
  if ¬ j < jobs.length then .error .assertion
  else match jobAt jobs j with
    | .error e => .error e
    | .ok job =>
      if job.state = FINISHED then
        match exitcode job with
        | .error e => .error e
        | .ok code =>
          match deljob job with
          | .error e => .error e
          | .ok job' =>
            match setJob jobs j job' with
            | .error e => .error e
            | .ok jobs' => .ok (job.state, code, jobs')
      else .ok (job.state, status, jobs)

/-- Lines 181-185. -/
def jobcmd (jobs : List Job) (j : Int) : Except Fault (Option String) :=
  if ¬ j < jobs.length then .error .assertion
  else match jobAt jobs j with
    | .error e => .error e
    | .ok job => .ok job.command

/-- What `printf` writes for `%s`: glibc prints `(null)` for a null pointer. -/
def showstr (s : Option String) : String := s.getD "(null)"

/-! ## The foreground monitor -/

/-- The update of the process found in `monitorjob` (lines 288-295): the
decoded exit status is stored when the process has finished. -/
def fgmark (p : Proc) (status : Nat) : Proc :=
  if WIFSTOPPED status then { p with state := STOPPED }
  else if WIFCONTINUED status then { p with state := RUNNING }
  else { p with state := FINISHED, exitcode := (WEXITSTATUS status : Int) }

/-- The loop of lines 279-311 on the foreground job: `waits` are the
successive results `(pid, status)` of `waitpid`; a result that is not
positive, and the end of the list, is a `waitpid` that fails. -/
def fgwait (job : Job) : List (Int × Nat) → Job
  | [] => job
  | (pid, status) :: rest =>
    if job.state = RUNNING ∧ pid > 0 then
      match updatejob (fun p => fgmark p status) job pid with
      | some job' => fgwait job' rest
      | none => fgwait job rest
    else job

/-- Lines 270-325.  `waits` are the results of `waitpid`, `cur` is what
`tcgetattr` reads from the terminal. -/
def monitorjob (sh : Shell) (waits : List (Int × Nat)) (cur : Nat) :
    Except Fault (Int × Shell × List Effect) :=
  match jobAt sh.jobs 0 with
  | .error e => .error e
  | .ok fgJob =>
    let job := { fgwait fgJob waits with tmodes := cur }
    let effects := [Effect.setfgpgrp sh.shell_pgrp, Effect.tcsetattr sh.shell_tmodes]
    match jobstate (sh.jobs.set 0 job) 0 0 with
    | .error e => .error e
    | .ok (state, code, jobs) =>
      if state = STOPPED then
        let r := allocjob jobs
        match movejob r.2 0 r.1 with
        | .error e => .error e
        | .ok jobs' => .ok (code, { sh with jobs := jobs' }, effects)
      else .ok (code, { sh with jobs := jobs }, effects)

/-! ## Job control commands -/

/-- The loop of lines 191-192, entered with `j = n`. -/
def resumescan (jobs : List Job) : Nat → Except Fault Int
  | 0 => .ok 0
  | n + 1 =>
    match jobAt jobs ((n : Int) + 1) with
    | .error e => .error e
    | .ok job => if job.state = FINISHED then resumescan jobs n else .ok ((n : Int) + 1)

/-- Lines 190-193: the slot `resumejob` works on. -/
def resumeslot (jobs : List Job) (j : Int) : Except Fault Int :=
  if j < 0 then
    if jobs.length = 0 then .ok (-1) else resumescan jobs (jobs.length - 1)
  else .ok j

/-- Lines 189-218. -/
def resumejob (sh : Shell) (j : Int) (bg : Int) (waits : List (Int × Nat)) (cur : Nat) :
    Except Fault (Bool × Shell × List Effect) :=
  match resumeslot sh.jobs j with
  | .error e => .error e
  | .ok j =>
    if j ≥ sh.jobs.length then .ok (false, sh, [])
    else match jobAt sh.jobs j with
      | .error e => .error e
      | .ok job =>
        if job.state = FINISHED then .ok (false, sh, [])
        else if bg = FG then
          match movejob sh.jobs j 0 with
          | .error e => .error e
          | .ok jobs =>
            match jobAt jobs 0 with
            | .error e => .error e
            | .ok fg =>
              let effects :=
                [Effect.print ("[" ++ toString j ++ "] continue " ++ "\x27"
                    ++ showstr fg.command ++ "\x27" ++ "\n"),
                 Effect.tcsetattr fg.tmodes,
                 Effect.setfgpgrp fg.pgid,
                 Effect.kill (-fg.pgid) Signal.SIGCONT]
              match monitorjob { sh with jobs := jobs.set 0 { fg with state := RUNNING } }
                  waits cur with
              | .error e => .error e
              | .ok (_, sh', effects') => .ok (true, sh', effects ++ effects')
        else .ok (true, sh, [Effect.kill job.pgid Signal.SIGCONT])

/-- Lines 221-235.  The `debug` line prints nothing in a build without
`DEBUG`. -/
def killjob (sh : Shell) (j : Int) : Except Fault (Bool × Shell × List Effect) :=
  if j ≥ sh.jobs.length then .ok (false, sh, [])
  else match jobAt sh.jobs j with
    | .error e => .error e
    | .ok job =>
      if job.state = FINISHED then .ok (false, sh, [])
      else if job.pgid ≠ 0 then
        .ok (true, sh, [Effect.kill (-job.pgid) Signal.SIGTERM,
                        Effect.kill (-job.pgid) Signal.SIGCONT])
      else .ok (true, sh, [])

/-- The low 16 bits of an `int` that holds a wait status, which are the bits
the macros of `<sys/wait.h>` look at. -/
def low16 (eCode : Int) : Nat := (eCode % 65536).toNat

/-- Lines 240-263 for the job in slot `j`: the job afterwards and what is
printed. -/
def watchjob (which : Int) (j : Int) (job : Job) : Except Fault (Job × List Effect) :=
  if job.pgid = 0 then .ok (job, [])
  else if which = ALL ∨ job.state = which then
    if job.state = RUNNING ∨ job.state = STOPPED then
      .ok (job,
        [Effect.print ("[" ++ toString j ++ "] "
          ++ (if job.state - 1 = 0 then "running" else "suspended")
          ++ " \x27" ++ showstr job.command ++ "\x27\n")])
    else
      match exitcode job with
      | .error e => .error e
      | .ok eCode =>
        match deljob job with
        | .error e => .error e
        | .ok job' =>
          .ok (job',
            [if WIFSIGNALED (low16 eCode) then
               Effect.print ("[" ++ toString j ++ "] killed \x27" ++ showstr job.command
                 ++ "\x27 by signal " ++ toString (WTERMSIG (low16 eCode)) ++ "\n")
             else
               Effect.print ("[" ++ toString j ++ "] exited \x27" ++ showstr job.command
                 ++ "\x27, status=" ++ toString (WEXITSTATUS (low16 eCode)) ++ "\n")])
  else .ok (job, [])

/-- The loop of lines 239-265 over the slots from `j` on. -/
def watchloop (which : Int) : List Job → Int → Except Fault (List Job × List Effect)
  | [], _ => .ok ([], [])
  | job :: rest, j =>
    match watchjob which j job with
    | .error e => .error e
    | .ok (job', out) =>
      match watchloop which rest (j + 1) with
      | .error e => .error e
      | .ok (rest', out') => .ok (job' :: rest', out ++ out')

/-- Lines 238-266: the loop starts at slot `BG`. -/
def watchjobs (sh : Shell) (which : Int) : Except Fault (Shell × List Effect) :=
  match sh.jobs with
  | [] => .ok (sh, [])
  | fg :: rest =>
    match watchloop which rest BG with
    | .error e => .error e
    | .ok (rest', out) => .ok ({ sh with jobs := fg :: rest' }, out)

/-! ## Commands and pipelines (`shell.c`)

The functions of `shell.c` are followed in the shell process, the parent of
every `Fork`: the child ends in `external_command` and never returns.  The
pids that `Fork` returns are an argument.  File descriptors are left out, as
no decision of the parent depends on them; the descriptor that `do_redir`
opens is stood for by the token that names the file. -/

/-- Modelled from the spec: `token_t` and its sentinels are declared in
`shell.h`, which is not among the sources ("an ordered sequence of string
tokens per command line, with reserved sentinel tokens for pipe separators,
background markers, and input/output redirection markers").  `null` is the
`NULL` pointer that ends an array of tokens. -/
inductive Token where
  | null
  | T_PIPE
  | T_BGJOB
  | T_INPUT
  | T_OUTPUT
  | word (s : String)
  deriving DecidableEq, Repr

/-- The argument vector a token array is read as: the strings before the
first `NULL`.  A sentinel among them is not a pointer to a string, and an
array without `NULL` is read past its end. -/
def argv : List Token → Except Fault (List String)
  | [] => .error .outOfBounds
  | Token.null :: _ => .ok []
  | Token.word s :: rest =>
    match argv rest with
    | .error e => .error e
    | .ok ws => .ok (s :: ws)
  | _ :: _ => .error .outOfBounds

/-- The loop of lines 31-52, entered with the index `i` and the count `n`;
`fuel` bounds the iterations that are left. -/
def do_redir_loop (ntokens : Nat) :
    Nat → Nat → Nat → List Token → Option Token → Option Token →
    Except Fault (Nat × List Token × Option Token × Option Token)
  | 0, _, n, token, input, output => .ok (n, token, input, output)
  | fuel + 1, i, n, token, input, output =>
    if i < ntokens then
      match token[i]? with
      | none => .error .outOfBounds
      | some mode =>
        if mode = Token.T_INPUT ∨ mode = Token.T_OUTPUT then
          match token[i + 1]? with
          | none => .error .outOfBounds
          | some file =>
            do_redir_loop ntokens fuel (i + 2) n
              ((token.set i Token.null).set (i + 1) Token.null)
              (if mode = Token.T_INPUT then some file else input)
              (if mode = Token.T_OUTPUT then some file else output)
        else do_redir_loop ntokens fuel (i + 1) (n + 1) token input output
    else .ok (n, token, input, output)

/-- Lines 27-56: the count returned, the token array afterwards, and the
files opened for input and for output.  The loop makes at most `ntokens`
iterations. -/
def do_redir (token : List Token) (ntokens : Nat) (input output : Option Token) :
    Except Fault (Nat × List Token × Option Token × Option Token) :=
  match do_redir_loop ntokens ntokens 0 0 token input output with
  | .error e => .error e
  | .ok (n, token', input', output') =>
    if n < token'.length then .ok (n, token'.set n Token.null, input', output')
    else .error .outOfBounds

/-- What the shell process does to the world while it runs a command. -/
inductive Call where
  | fork (pid : Int) (pgid : Int)
  | setpgid (pid pgid : Int)
  | setfgpgrp (pgid : Int)
  | print (line : String)
  | app_error (msg : String)
  | jobs (effect : Effect)
  deriving DecidableEq, Repr

/-- How a command ended: the job table, the calls made, and the exit code
returned, which is `none` when the command was abandoned with an error
message. -/
structure Outcome where
  sh : Shell
  calls : List Call
  exitcode : Option Int
  deriving DecidableEq, Repr

/-- The `int` a `bool` is passed as. -/
def ofBool (b : Bool) : Int := if b then 1 else 0

/-- Modelled from the spec: `app_error` is declared in `shell.h` and defined
outside the sources given.  It reports the message to the user, and the
command line is abandoned ("a fatal-to-that-command formatting error, reported
and abandoned"): the call is recorded and nothing follows it. -/
def app_error (msg : String) : Call := Call.app_error msg

/-- Modelled from the spec: the wrapper `Fork` is declared in `shell.h` and
defined outside the sources given.  In the shell process it returns the pid
of the child, here the next pid of `forks`; when no pid is left the `fork`
fails ("resource exhaustion on fork/pipe creation is treated as an
unrecoverable shell error"). -/
def Fork : List Int → Option (Int × List Int)
  | [] => none
  | pid :: forks => some (pid, forks)

/-- Lines 60-123.  `builtin` is what `builtin_command` returns, which is
negative for a command that is not built in; `setpgid_ok` tells whether
`setpgid(pid, pid)` succeeds.  A built-in command is not followed further, and
neither is the child (`pid == 0`). -/
def do_job (sh : Shell) (token : List Token) (ntokens : Nat) (bg : Bool) (builtin : Int)
    (setpgid_ok : Bool) (forks : List Int) (waits : List (Int × Nat)) (cur : Nat) :
    Except Fault Outcome :=
  match do_redir token ntokens none none with
  | .error e => .error e
  | .ok (_, token', _, _) =>
    if bg = false ∧ builtin ≥ 0 then .ok { sh := sh, calls := [], exitcode := some builtin }
    else
      let exitcode : Int := if bg = false then builtin else 0
      match Fork forks with
      | none => .ok { sh := sh, calls := [app_error "Fork error"], exitcode := none }
      | some (pid, _) =>
        if pid > 0 then
          let calls := [Call.fork pid 0, Call.setpgid pid pid]
            ++ (if setpgid_ok = true ∧ bg = false then [Call.setfgpgrp pid] else [])
          match addjob sh pid (ofBool bg) with
          | .error e => .error e
          | .ok (j, sh1) =>
            match argv token' with
            | .error e => .error e
            | .ok args =>
              match addproc sh1.jobs j pid args with
              | .error e => .error e
              | .ok jobs2 =>
                if bg = false then
                  match monitorjob { sh1 with jobs := jobs2 } waits cur with
                  | .error e => .error e
                  | .ok (_, sh3, effects) =>
                    .ok { sh := sh3, calls := calls ++ effects.map Call.jobs,
                          exitcode := some exitcode }
                else
                  match jobcmd jobs2 j with
                  | .error e => .error e
                  | .ok cmd =>
                    .ok { sh := { sh1 with jobs := jobs2 },
                          calls := calls ++ [Call.print ("[" ++ toString j ++ "] running \x27"
                            ++ showstr cmd ++ "\x27\n")],
                          exitcode := some exitcode }
        else .ok { sh := sh, calls := [Call.fork pid 0], exitcode := some exitcode }

/-- The scan of lines 196-198, entered with `iToken = i` at the tokens from
`token[i]` on. -/
def stage_len (ntokens : Int) : List Token → Nat → Except Fault Nat
  | [], i => if (i : Int) ≤ ntokens then .error .outOfBounds else .ok i
  | t :: rest, i =>
    if (i : Int) ≤ ntokens ∧ t ≠ Token.null ∧ t ≠ Token.T_PIPE then
      stage_len ntokens rest (i + 1)
    else .ok i

/-- The loop of lines 194-225 with `do_stage` (lines 127-166) in it.  The
result is the table, the slot of the job, the calls made, and whether the loop
came to its end (`false` when `app_error` or a failing `Fork` abandoned the
command).  `fuel` bounds the iterations that are left. -/
def do_pipeline_loop (bg : Bool) :
    Nat → Shell → List Token → Int → Int → Int → List Int → List Call →
    Except Fault (Shell × Int × List Call × Bool)
  | 0, sh, _, _, _, job, _, calls => .ok (sh, job, calls, true)
  | fuel + 1, sh, token, ntokens, pgid, job, forks, calls =>
    if ntokens > 0 then
      match stage_len ntokens token 0 with
      | .error e => .error e
      | .ok iToken =>
        match do_redir token iToken none none with
        | .error e => .error e
        | .ok (n, token', _, _) =>
          if n = 0 then
            .ok (sh, job,
              calls ++ [app_error "ERROR: Command line is not well formed!"], false)
          else
            match Fork forks with
            | none => .ok (sh, job, calls ++ [app_error "Fork error"], false)
            | some (pid, forks') =>
              match (if job = -1 then
                  match addjob sh pid (ofBool bg) with
                  | .error e => Except.error e
                  | .ok (j, sh1) => Except.ok (pid, j, sh1)
                else Except.ok (pgid, job, sh) : Except Fault (Int × Int × Shell)) with
              | .error e => .error e
              | .ok (pgid1, job1, sh1) =>
                match argv token' with
                | .error e => .error e
                | .ok args =>
                  match addproc sh1.jobs job1 pid args with
                  | .error e => .error e
                  | .ok jobs2 =>
                    do_pipeline_loop bg fuel { sh1 with jobs := jobs2 }
                      (token'.drop (iToken + 1)) (ntokens - ((iToken : Int) + 1)) pgid1 job1
                      forks'
                      (calls ++ [Call.fork pid pgid, Call.setpgid pid pgid1]
                        ++ (if bg = false then [Call.setfgpgrp pgid1] else []))
    else .ok (sh, job, calls, true)

/-- Lines 179-238.  The loop makes at most `ntokens` iterations. -/
def do_pipeline (sh : Shell) (token : List Token) (ntokens : Nat) (bg : Bool)
    (forks : List Int) (waits : List (Int × Nat)) (cur : Nat) : Except Fault Outcome :=
  match do_pipeline_loop bg ntokens sh token (ntokens : Int) 0 (-1) forks [] with
  | .error e => .error e
  | .ok (sh1, _, calls, false) => .ok { sh := sh1, calls := calls, exitcode := none }
  | .ok (sh1, job, calls, true) =>
    if bg = false then
      match monitorjob sh1 waits cur with
      | .error e => .error e
      | .ok (code, sh2, effects) =>
        .ok { sh := sh2, calls := calls ++ effects.map Call.jobs, exitcode := some code }
    else
      match jobcmd sh1.jobs job with
      | .error e => .error e
      | .ok cmd =>
        .ok { sh := sh1,
              calls := calls ++ [Call.print ("[" ++ toString job ++ "] running \x27"
                ++ showstr cmd ++ "\x27\n")],
              exitcode := some 0 }

/-! ## Functions used to state the results -/

/-- What the processes of the foreground job are after the exits `waits`. -/
def exited (waits : List (Int × Nat)) (p : Proc) : Proc :=
  match waits.lookup p.pid with
  | some status => { p with state := FINISHED, exitcode := (WEXITSTATUS status : Int) }
  | none => p

/-- A sequence of calls `addproc(j, pid, argv)` on the same slot. -/
def addprocs (jobs : List Job) (j : Int) : List (Int × List String) → Except Fault (List Job)
  | [] => .ok jobs
  | (pid, argv) :: calls =>
    match addproc jobs j pid argv with
    | .error e => .error e
    | .ok jobs' => addprocs jobs' j calls

/-- Who receives a signal sent with `kill(target, sig)` (POSIX): the process
`target` when `target` is positive, the process group of the caller when it is
0, every process when it is -1, and the process group `-target` otherwise.
`pgid` and `pid` are the group and the identifier of the process asked about. -/
def receives (caller_pgrp target pgid pid : Int) : Bool :=
  if target > 0 then pid == target
  else if target = 0 then pgid == caller_pgrp
  else if target = -1 then true
  else pgid == -target

/-- The line of the report for the job in slot `j`, as the interface of the
shell states it: `[<slot>] running '<command>'`, `[<slot>] suspended
'<command>'`, `[<slot>] killed '<command>' by signal <n>` when the recorded
status `status` of the last process says that a signal `n` terminated it, and
`[<slot>] exited '<command>', status=<n>` otherwise. -/
def report_line (j : Int) (state : Int) (cmd : String) (status : Int) : String :=
  if state = RUNNING then "[" ++ toString j ++ "] running \x27" ++ cmd ++ "\x27"
  else if state = STOPPED then "[" ++ toString j ++ "] suspended \x27" ++ cmd ++ "\x27"
  else if WIFSIGNALED (low16 status) then
    "[" ++ toString j ++ "] killed \x27" ++ cmd ++ "\x27 by signal "
      ++ toString (WTERMSIG (low16 status))
  else
    "[" ++ toString j ++ "] exited \x27" ++ cmd ++ "\x27, status="
      ++ toString (WEXITSTATUS (low16 status))

/-- The recorded status of the last process of a job (-1 without a process). -/
def laststatus (job : Job) : Int :=
  (job.proc.getLast?.map Proc.exitcode).getD (-1)

/-- Whether `watchjobs(which)` selects a job: the slot is occupied and the
state of the job matches the filter. -/
def selected (which : Int) (job : Job) : Bool :=
  decide (job.pgid ≠ 0 ∧ (which = ALL ∨ job.state = which))

/-- A slot after `watchjobs(which)`: free when its job was selected and
Finished, as it was otherwise. -/
def swept (which : Int) (job : Job) : Job :=
  if selected which job = true ∧ job.state = FINISHED then
    { job with pgid := 0, proc := [], command := none }
  else job

/-- The tokens that follow the first stage of a pipeline whose further stages
are `stages`: a pipe token and the words of each stage, then `NULL`. -/
def pipeline_tail : List (List String) → List Token
  | [] => [Token.null]
  | s :: rest => Token.T_PIPE :: (s.map Token.word ++ pipeline_tail rest)

/-- The token array of a pipeline whose stages are `stages`, the words of the
stages separated by pipe tokens and ended with `NULL`; it is empty when there
is no stage left to read. -/
def pipeline_tokens : List (List String) → List Token
  | [] => []
  | s :: rest => s.map Token.word ++ pipeline_tail rest

/-- The calls the shell makes for one stage of a pipeline with the process
group `pgid`: the child is created with `arg` as the group it asks for. -/
def stage_calls (bg : Bool) (pgid arg pid : Int) : List Call :=
  [Call.fork pid arg, Call.setpgid pid pgid]
    ++ (if bg = false then [Call.setfgpgrp pgid] else [])

/-- A job record respects the invariant of free slots: when its pgid is 0 it
has no process and no command text. -/
def slot_ok (job : Job) : Prop :=
  job.pgid = 0 → job.proc = [] ∧ job.command = none

instance : DecidablePred slot_ok := fun job => by
  unfold slot_ok
  infer_instance

/-- The invariant of the job table: every free slot is empty. -/
def free_slots_empty (jobs : List Job) : Prop :=
  ∀ job ∈ jobs, slot_ok job

instance : DecidablePred free_slots_empty := fun jobs => by
  unfold free_slots_empty
  infer_instance

/-- The job tables the shell can reach from the initial table of one zeroed
slot (`initjobs`) by the operations of `jobs.c` that change the table:
`addjob` with a pgid other than 0, `addproc` on an occupied slot, `deljob`,
`movejob`, `allocjob`, `jobstate`, `watchjobs`, `monitorjob`, `resumejob` and
`sigchld_handler`. -/
inductive Reachable : List Job → Prop where
  | init : Reachable [Job.zero]
  | addjob (jobs : List Job) (tmodes : Nat) (pgrp pgid bg j : Int) (sh' : Shell) :
      Reachable jobs → pgid ≠ 0 →
      addjob { jobs := jobs, shell_tmodes := tmodes, shell_pgrp := pgrp } pgid bg = .ok (j, sh') →
      Reachable sh'.jobs
  | addproc (jobs jobs' : List Job) (j pid : Int) (job : Job) (args : List String) :
      Reachable jobs → jobAt jobs j = .ok job → job.pgid ≠ 0 →
      addproc jobs j pid args = .ok jobs' → Reachable jobs'
  | deljob (jobs jobs' : List Job) (j : Int) (job job' : Job) :
      Reachable jobs → jobAt jobs j = .ok job → deljob job = .ok job' →
      setJob jobs j job' = .ok jobs' → Reachable jobs'
  | movejob (jobs jobs' : List Job) (src dst : Int) :
      Reachable jobs → movejob jobs src dst = .ok jobs' → Reachable jobs'
  | allocjob (jobs : List Job) : Reachable jobs → Reachable (allocjob jobs).2
  | jobstate (jobs jobs' : List Job) (j status state code : Int) :
      Reachable jobs → jobstate jobs j status = .ok (state, code, jobs') → Reachable jobs'
  | watchjobs (jobs : List Job) (tmodes : Nat) (pgrp which : Int) (sh' : Shell)
      (out : List Effect) :
      Reachable jobs →
      watchjobs { jobs := jobs, shell_tmodes := tmodes, shell_pgrp := pgrp } which
        = .ok (sh', out) →
      Reachable sh'.jobs
  | monitorjob (jobs : List Job) (tmodes : Nat) (pgrp : Int) (waits : List (Int × Nat))
      (cur : Nat) (code : Int) (sh' : Shell) (effects : List Effect) :
      Reachable jobs →
      monitorjob { jobs := jobs, shell_tmodes := tmodes, shell_pgrp := pgrp } waits cur
        = .ok (code, sh', effects) →
      Reachable sh'.jobs
  | resumejob (jobs : List Job) (tmodes : Nat) (pgrp j bg : Int) (waits : List (Int × Nat))
      (cur : Nat) (ok : Bool) (sh' : Shell) (effects : List Effect) :
      Reachable jobs →
      resumejob { jobs := jobs, shell_tmodes := tmodes, shell_pgrp := pgrp } j bg waits cur
        = .ok (ok, sh', effects) →
      Reachable sh'.jobs
  | sigchld_handler (jobs : List Job) (events : List (Int × Nat)) :
      Reachable jobs → Reachable (sigchld_handler jobs events)

/-- A property of job records that the operations of `jobs.c` keep: it holds
of a zeroed record and of the record `addjob` writes, and it goes through
`addproc` on an occupied slot, `deljob`, the update of a process found, the
saving of the terminal modes and the marking as Running. -/
structure Kept (P : Job → Prop) : Prop where
  zero : P Job.zero
  fresh : ∀ (pgid : Int) (tmodes : Nat), pgid ≠ 0 →
    P { pgid := pgid, proc := [], tmodes := tmodes, state := RUNNING, command := none }
  addproc : ∀ (job : Job) (p : Proc) (cmd : Option String), job.pgid ≠ 0 → P job →
    P { job with proc := job.proc ++ [p], command := cmd }
  deljob : ∀ job job' : Job, P job → deljob job = .ok job' → P job'
  update : ∀ (mark : Proc → Proc) (job job' : Job) (pid : Int), P job →
    updatejob mark job pid = some job' → P job'
  tmodes : ∀ (job : Job) (cur : Nat), P job → P { job with tmodes := cur }
  running : ∀ job : Job, P job → P { job with state := RUNNING }

/-- A job record that is occupied and Finished has at least one process, the
one whose status made it Finished. -/
def finished_has_process (job : Job) : Prop :=
  job.pgid ≠ 0 → job.state = FINISHED → job.proc ≠ []

instance : DecidablePred finished_has_process := fun job => by
  unfold finished_has_process
  infer_instance

/-! ## Lemmas on the search for a process -/

theorem findproc_none (mark : Proc → Proc) (pid : Int) (ps : List Proc)
    (h : ∀ q ∈ ps, q.pid ≠ pid) : findproc mark pid ps = none := by
  induction ps with
  | nil => rfl
  | cons p ps ih =>
    have hp : p.pid ≠ pid := h p (by simp)
    have ih := ih (fun q hq => h q (by simp [hq]))
    simp [findproc, hp, ih]

theorem findproc_first (mark : Proc → Proc) (pid : Int) :
    ∀ (ps : List Proc) (k : Nat) (p : Proc), ps[k]? = some p → p.pid = pid →
      (∀ i < k, ∀ q, ps[i]? = some q → q.pid ≠ pid) →
      findproc mark pid ps = some (ps.set k (mark p), (mark p).state) := by
  intro ps
  induction ps with
  | nil => intro k p h; simp at h
  | cons a ps ih =>
    intro k p h hp hfirst
    cases k with
    | zero =>
      simp at h
      subst h
      simp [findproc, hp]
    | succ k =>
      have ha : a.pid ≠ pid := hfirst 0 (by omega) a (by simp)
      simp at h
      have := ih k p h hp (fun i hi q hq => hfirst (i + 1) (by omega) q (by simpa using hq))
      simp [findproc, ha, this]

theorem findproc_some_inv (mark : Proc → Proc) (pid : Int) :
    ∀ (ps ps' : List Proc) (s : Int), findproc mark pid ps = some (ps', s) →
      ∃ k p, ps[k]? = some p ∧ p.pid = pid ∧ ps' = ps.set k (mark p) ∧ s = (mark p).state := by
  intro ps
  induction ps with
  | nil => intro ps' s h; simp [findproc] at h
  | cons a ps ih =>
    intro ps' s h
    by_cases ha : a.pid = pid
    · simp [findproc, ha] at h
      exact ⟨0, a, by simp, ha, by simp [h.1], h.2.symm⟩
    · simp only [findproc, ha, if_false] at h
      cases hf : findproc mark pid ps with
      | none => simp [hf] at h
      | some r =>
        obtain ⟨qs, t⟩ := r
        simp [hf] at h
        obtain ⟨k, p, hk, hp, hqs, ht⟩ := ih qs t hf
        refine ⟨k + 1, p, by simpa using hk, hp, ?_, ?_⟩
        · rw [← h.1, hqs]; simp
        · rw [← h.2, ht]

theorem markproc_state (p : Proc) (status : Nat) :
    (markproc p status).state = newstate status := by
  unfold markproc newstate
  split
  · rfl
  · split <;> rfl

theorem markproc_eq (p : Proc) (status : Nat) :
    markproc p status =
      { pid := p.pid,
        state := if WIFSTOPPED status then STOPPED
                 else if WIFCONTINUED status then RUNNING else FINISHED,
        exitcode := if WIFSTOPPED status then p.exitcode
                    else if WIFCONTINUED status then p.exitcode else (status : Int) } := by
  unfold markproc
  split
  · rfl
  · split <;> rfl

theorem same_iff (procs : List Proc) (s : Int) :
    same procs s = true ↔ ∀ q ∈ procs, q.state = s := by
  simp [same]

theorem updatejob_none (mark : Proc → Proc) (job : Job) (pid : Int)
    (h : ∀ q ∈ job.proc, q.pid ≠ pid) : updatejob mark job pid = none := by
  simp [updatejob, findproc_none mark pid job.proc h]

theorem updatejob_first (mark : Proc → Proc) (job : Job) (pid : Int) (k : Nat) (p : Proc)
    (hk : job.proc[k]? = some p) (hp : p.pid = pid)
    (hfirst : ∀ i < k, ∀ q, job.proc[i]? = some q → q.pid ≠ pid) :
    updatejob mark job pid =
      some { job with
        proc := job.proc.set k (mark p),
        state := if same (job.proc.set k (mark p)) (mark p).state then (mark p).state
                 else job.state } := by
  simp [updatejob, findproc_first mark pid job.proc k p hk hp hfirst]

theorem updatejob_some_inv (mark : Proc → Proc) (job job' : Job) (pid : Int)
    (h : updatejob mark job pid = some job') :
    ∃ k p, job.proc[k]? = some p ∧ p.pid = pid ∧
      job' = { job with
        proc := job.proc.set k (mark p),
        state := if same (job.proc.set k (mark p)) (mark p).state then (mark p).state
                 else job.state } := by
  unfold updatejob at h
  cases hf : findproc mark pid job.proc with
  | none => simp [hf] at h
  | some r =>
    obtain ⟨ps, s⟩ := r
    simp [hf] at h
    obtain ⟨k, p, hk, hp, hps, hs⟩ := findproc_some_inv mark pid job.proc ps s hf
    refine ⟨k, p, hk, hp, ?_⟩
    rw [← h, hps, hs]

theorem reap_untracked (pid : Int) (status : Nat) (jobs : List Job)
    (h : ∀ job ∈ jobs, job.pgid ≠ 0 → ∀ q ∈ job.proc, q.pid ≠ pid) :
    reap pid status jobs = jobs := by
  induction jobs with
  | nil => rfl
  | cons job rest ih =>
    have ih := ih (fun job' hj => h job' (by simp [hj]))
    unfold reap
    by_cases h0 : job.pgid = 0
    · simp [h0, ih]
    · simp [h0, updatejob_none _ job pid (h job (by simp) h0), ih]

theorem reap_first (pid : Int) (status : Nat) :
    ∀ (jobs : List Job) (j : Nat) (job job' : Job), jobs[j]? = some job → job.pgid ≠ 0 →
      updatejob (fun p => markproc p status) job pid = some job' →
      (∀ i < j, ∀ other, jobs[i]? = some other → other.pgid ≠ 0 →
        ∀ q ∈ other.proc, q.pid ≠ pid) →
      reap pid status jobs = jobs.set j job' := by
  intro jobs
  induction jobs with
  | nil => intro j job job' h; simp at h
  | cons a rest ih =>
    intro j job job' h hpg hup hfirst
    cases j with
    | zero =>
      simp at h
      subst h
      simp [reap, hpg, hup]
    | succ j =>
      simp at h
      have ih := ih j job job' h hpg hup
        (fun i hi other ho => hfirst (i + 1) (by omega) other (by simpa using ho))
      have ha := hfirst 0 (by omega) a (by simp)
      unfold reap
      by_cases h0 : a.pgid = 0
      · simp [h0, ih]
      · simp [h0, updatejob_none _ a pid (ha h0), ih]

theorem reap_cases (pid : Int) (status : Nat) (jobs : List Job) :
    reap pid status jobs = jobs ∨
      ∃ j job job', jobs[j]? = some job ∧
        updatejob (fun p => markproc p status) job pid = some job' ∧
        reap pid status jobs = jobs.set j job' := by
  induction jobs with
  | nil => left; rfl
  | cons a rest ih =>
    unfold reap
    by_cases h0 : a.pgid = 0
    · simp only [h0, if_true]
      rcases ih with ih | ⟨j, job, job', hj, hu, hr⟩
      · left; rw [ih]
      · right; exact ⟨j + 1, job, job', by simpa using hj, hu, by simp [hr]⟩
    · simp only [h0, if_false]
      cases hu : updatejob (fun p => markproc p status) a pid with
      | some a' => right; exact ⟨0, a, a', by simp, hu, by simp⟩
      | none =>
        rcases ih with ih | ⟨j, job, job', hj, hu', hr⟩
        · left; simp [ih]
        · right; exact ⟨j + 1, job, job', by simpa using hj, hu', by simp [hr]⟩

theorem reap_length (pid : Int) (status : Nat) (jobs : List Job) :
    (reap pid status jobs).length = jobs.length := by
  rcases reap_cases pid status jobs with h | ⟨j, job, job', _, _, h⟩ <;> simp [h]

/-- The job in a slot after one status change: it is the job that was there,
or the update of that job. -/
theorem reap_slot (pid : Int) (status : Nat) (jobs : List Job) (j : Nat) (job : Job)
    (hj : jobs[j]? = some job) :
    (reap pid status jobs)[j]? = some job ∨
      ∃ job', updatejob (fun p => markproc p status) job pid = some job' ∧
        (reap pid status jobs)[j]? = some job' := by
  rcases reap_cases pid status jobs with h | ⟨i, a, a', hi, hu, h⟩
  · left; rw [h, hj]
  · by_cases hij : i = j
    · subst hij
      rw [hj] at hi
      cases hi
      right
      refine ⟨a', hu, ?_⟩
      rw [h]
      have : i < jobs.length := by
        rcases Nat.lt_or_ge i jobs.length with hl | hl
        · exact hl
        · rw [List.getElem?_eq_none hl] at hj; cases hj
      simp [List.getElem?_set, this]
    · left
      rw [h, List.getElem?_set_ne hij, hj]

/-! ## One status change (`sigchld_handler`) -/

/-- C2: one status change for a tracked process.  The process found is the
first one with this pid in the first occupied slot that has one (slot `j`,
position `k`).  Its state becomes Stopped, Running or Finished, the raw status
is stored as its exit code when it has finished, the state of its job becomes
the new state when every process of the job has it and stays what it was
otherwise, and every other slot is unchanged.  When no occupied slot has a
process with this pid the table is unchanged. -/
theorem sigchld_handler_single_event (jobs : List Job) (pid : Int) (status : Nat)
    (hpid : 0 < pid) :
    (∀ (j k : Nat) (job : Job) (p : Proc),
      jobs[j]? = some job → job.pgid ≠ 0 → job.proc[k]? = some p → p.pid = pid →
      (∀ i < j, ∀ other, jobs[i]? = some other → other.pgid ≠ 0 →
        ∀ q ∈ other.proc, q.pid ≠ pid) →
      (∀ i < k, ∀ q, job.proc[i]? = some q → q.pid ≠ pid) →
      ∃ s : Int, ∃ p' : Proc,
        s = (if WIFSTOPPED status then STOPPED
             else if WIFCONTINUED status then RUNNING else FINISHED) ∧
        p' = { pid := p.pid, state := s,
               exitcode := if s = FINISHED then (status : Int) else p.exitcode } ∧
        sigchld_handler jobs [(pid, status)] =
          jobs.set j { job with
            proc := job.proc.set k p',
            state := if ∀ q ∈ job.proc.set k p', q.state = s then s else job.state }) ∧
    ((∀ job ∈ jobs, job.pgid ≠ 0 → ∀ q ∈ job.proc, q.pid ≠ pid) →
      sigchld_handler jobs [(pid, status)] = jobs) := by
  constructor
  · intro j k job p hj hpg hk hp hfj hfk
    refine ⟨_, _, rfl, rfl, ?_⟩
    have hu := updatejob_first (fun p => markproc p status) job pid k p hk hp hfk
    have hr := reap_first pid status jobs j job _ hj hpg hu hfj
    simp only [sigchld_handler, hpid, gt_iff_lt, if_true, hr]
    have hm : markproc p status =
        { pid := p.pid,
          state := (if WIFSTOPPED status then STOPPED
             else if WIFCONTINUED status then RUNNING else FINISHED),
          exitcode := if (if WIFSTOPPED status then STOPPED
             else if WIFCONTINUED status then RUNNING else FINISHED) = FINISHED
             then (status : Int) else p.exitcode } := by
      rw [markproc_eq]
      by_cases h1 : WIFSTOPPED status = true
      · simp [h1, STOPPED, FINISHED]
      · by_cases h2 : WIFCONTINUED status = true
        · simp [h1, h2, RUNNING, FINISHED]
        · simp [h1, h2]
    rw [hm]
    simp only [same_iff]
  · intro h
    simp [sigchld_handler, hpid, reap_untracked pid status jobs h]

/-- A table with a two-stage pipeline in slot 1, whose second stage exits with
status 7. -/
theorem sigchld_handler_single_event_witness :
    sigchld_handler
        [Job.zero,
         { pgid := 10, proc := [⟨10, RUNNING, -1⟩, ⟨11, RUNNING, -1⟩], tmodes := 0,
           state := RUNNING, command := some "a | b" }]
        [(11, 1792)] =
      [Job.zero,
       { pgid := 10, proc := [⟨10, RUNNING, -1⟩, ⟨11, FINISHED, 1792⟩], tmodes := 0,
         state := RUNNING, command := some "a | b" }] := by
  obtain ⟨s, p', hs, hp', h⟩ :=
    (sigchld_handler_single_event
      [Job.zero,
       { pgid := 10, proc := [⟨10, RUNNING, -1⟩, ⟨11, RUNNING, -1⟩], tmodes := 0,
         state := RUNNING, command := some "a | b" }] 11 1792 (by decide)).1 1 1
      { pgid := 10, proc := [⟨10, RUNNING, -1⟩, ⟨11, RUNNING, -1⟩], tmodes := 0,
        state := RUNNING, command := some "a | b" } ⟨11, RUNNING, -1⟩
      rfl (by decide) rfl rfl
      (by
        intro i hi other ho
        have : i = 0 := by omega
        subst this
        simp at ho
        subst ho
        intro h0
        exact absurd rfl h0)
      (by
        intro i hi q hq
        have : i = 0 := by omega
        subst this
        simp at hq
        subst hq
        decide)
  rw [h, hp', hs]
  decide

/-! ## Sequences of status changes (`sigchld_handler`) -/

theorem sigchld_handler_snoc (pre : List (Int × Nat)) (e : Int × Nat) :
    ∀ jobs : List Job, (∀ x ∈ pre, 0 < x.1) → 0 < e.1 →
      sigchld_handler jobs (pre ++ [e]) = reap e.1 e.2 (sigchld_handler jobs pre) := by
  induction pre with
  | nil =>
    intro jobs _ he
    obtain ⟨pid, status⟩ := e
    simp at he
    simp [sigchld_handler, he]
  | cons x pre ih =>
    intro jobs hpre he
    obtain ⟨pid, status⟩ := x
    have hx : 0 < pid := hpre (pid, status) (by simp)
    have ih := ih (reap pid status jobs) (fun y hy => hpre y (by simp [hy])) he
    simp [sigchld_handler, hx, ih]

theorem sigchld_handler_length (evs : List (Int × Nat)) :
    ∀ jobs : List Job, (sigchld_handler jobs evs).length = jobs.length := by
  induction evs with
  | nil => intro jobs; rfl
  | cons x evs ih =>
    intro jobs
    obtain ⟨pid, status⟩ := x
    unfold sigchld_handler
    split
    · rw [ih, reap_length]
    · rfl

/-- What one update of a job establishes, for an update that gives every
process it marks the state `ns`. -/
theorem updatejob_state (mark : Proc → Proc) (ns : Int) (hmark : ∀ p, (mark p).state = ns)
    (job job' : Job) (pid : Int) (h : updatejob mark job pid = some job') :
    job'.proc ≠ [] ∧
    (∀ s, (∀ p ∈ job'.proc, p.state = s) → job'.state = s) ∧
    ((∃ p ∈ job'.proc, p.state ≠ ns) → job'.state = job.state) ∧
    (job'.state ≠ job.state → ∀ p ∈ job'.proc, p.state = job'.state) := by
  obtain ⟨k, p, hk, _, hjob⟩ := updatejob_some_inv mark job job' pid h
  have hlt : k < job.proc.length := by
    rcases Nat.lt_or_ge k job.proc.length with hl | hl
    · exact hl
    · rw [List.getElem?_eq_none hl] at hk; cases hk
  have hmem : mark p ∈ job.proc.set k (mark p) := List.mem_iff_getElem.mpr
    ⟨k, by simpa using hlt, by simp⟩
  subst hjob
  simp only [hmark]
  refine ⟨?_, ?_, ?_, ?_⟩
  · intro hnil
    rw [hnil] at hmem
    cases hmem
  · intro s hs
    have hns : ns = s := by rw [← hmark p]; exact hs _ hmem
    subst hns
    have : same (job.proc.set k (mark p)) ns = true := (same_iff _ _).mpr hs
    simp [this]
  · rintro ⟨q, hq, hne⟩
    have : ¬ same (job.proc.set k (mark p)) ns = true := by
      intro hsame
      exact hne ((same_iff _ _).mp hsame q hq)
    simp [this]
  · intro hne
    by_cases hsame : same (job.proc.set k (mark p)) ns = true
    · simp only [hsame, if_true]
      exact (same_iff _ _).mp hsame
    · simp [hsame] at hne

/-- The state of a job after a sequence of status changes: the job keeps at
least one process, its state is the state all its processes share when they
share one, and a state other than Running was shared by all its processes
after some prefix of the sequence. -/
theorem sigchld_handler_converged (jobs : List Job) (j : Nat) (job : Job)
    (hj : jobs[j]? = some job) (hne : job.proc ≠ []) (hst : job.state = RUNNING)
    (hall : ∀ p ∈ job.proc, p.state = RUNNING) (evs : List (Int × Nat)) :
    (∀ e ∈ evs, 0 < e.1) →
    ∃ job', (sigchld_handler jobs evs)[j]? = some job' ∧ job'.proc ≠ [] ∧
      (∀ s, (∀ p ∈ job'.proc, p.state = s) → job'.state = s) ∧
      (∀ s, s ≠ RUNNING → job'.state = s →
        ∃ pre post mid, evs = pre ++ post ∧ (sigchld_handler jobs pre)[j]? = some mid ∧
          ∀ p ∈ mid.proc, p.state = s) := by
  induction evs using List.reverseRecOn with
  | nil =>
    intro _
    refine ⟨job, by simpa [sigchld_handler] using hj, hne, ?_, ?_⟩
    · intro s hs
      obtain ⟨p, hp⟩ := List.exists_mem_of_ne_nil _ hne
      rw [hst, ← hall p hp, hs p hp]
    · intro s hs hjs
      rw [hst] at hjs
      exact absurd hjs.symm hs
  | append_singleton pre e ih =>
    intro hev
    have hpre : ∀ x ∈ pre, 0 < x.1 := fun x hx => hev x (by simp [hx])
    have he : 0 < e.1 := hev e (by simp)
    obtain ⟨before, hb, hbne, hba, hbb⟩ := ih hpre
    rw [sigchld_handler_snoc pre e jobs hpre he]
    rcases reap_slot e.1 e.2 _ j before hb with h | ⟨after, hu, h⟩
    · refine ⟨before, h, hbne, hba, ?_⟩
      intro s hs hjs
      obtain ⟨p1, p2, mid, hsplit, hmid, hm⟩ := hbb s hs hjs
      exact ⟨p1, p2 ++ [e], mid, by simp [hsplit], hmid, hm⟩
    · obtain ⟨hane, haa, _, hchg⟩ :=
        updatejob_state (fun p => markproc p e.2) (newstate e.2)
          (fun p => markproc_state p e.2) before after e.1 hu
      refine ⟨after, h, hane, haa, ?_⟩
      intro s hs hjs
      by_cases hsame : after.state = before.state
      · obtain ⟨p1, p2, mid, hsplit, hmid, hm⟩ := hbb s hs (by rw [← hsame, hjs])
        exact ⟨p1, p2 ++ [e], mid, by simp [hsplit], hmid, hm⟩
      · refine ⟨pre ++ [e], [], after, by simp, ?_, ?_⟩
        · rw [sigchld_handler_snoc pre e jobs hpre he]; exact h
        · rw [← hjs]; exact hchg hsame

/-- C1 (as the code has it): for a job whose processes are all Running, and
every sequence of status changes, afterwards the state of the job is Stopped
(Finished, Running) whenever every process of the job is Stopped (Finished,
Running); a job that is Stopped or Finished had all its processes in that
state after some prefix of the sequence, though not necessarily at its end;
and a status change that leaves a process of the job in a state other than
the new one keeps the state the job had before it. -/
theorem sigchld_handler_aggregate_state (jobs : List Job) (j : Nat) (job : Job)
    (evs : List (Int × Nat)) (hj : jobs[j]? = some job) (hne : job.proc ≠ [])
    (hst : job.state = RUNNING) (hall : ∀ p ∈ job.proc, p.state = RUNNING)
    (hev : ∀ e ∈ evs, 0 < e.1) :
    ∃ job', (sigchld_handler jobs evs)[j]? = some job' ∧
      (∀ s, (∀ p ∈ job'.proc, p.state = s) → job'.state = s) ∧
      (∀ s, s ≠ RUNNING → job'.state = s →
        ∃ pre post mid, evs = pre ++ post ∧ (sigchld_handler jobs pre)[j]? = some mid ∧
          ∀ p ∈ mid.proc, p.state = s) ∧
      (∀ pre e post before after, evs = pre ++ e :: post →
        (sigchld_handler jobs pre)[j]? = some before →
        (sigchld_handler jobs (pre ++ [e]))[j]? = some after →
        (∃ p ∈ after.proc, p.state ≠ newstate e.2) → after.state = before.state) := by
  obtain ⟨job', h1, _, h2, h3⟩ := sigchld_handler_converged jobs j job hj hne hst hall evs hev
  refine ⟨job', h1, h2, h3, ?_⟩
  intro pre e post before after hsplit hb ha hdiff
  have hpre : ∀ x ∈ pre, 0 < x.1 := fun x hx => hev x (by simp [hsplit, hx])
  have he : 0 < e.1 := hev e (by simp [hsplit])
  rw [sigchld_handler_snoc pre e jobs hpre he] at ha
  rcases reap_slot e.1 e.2 _ j before hb with h | ⟨after', hu, h⟩
  · rw [h] at ha
    cases ha
    rfl
  · rw [h] at ha
    cases ha
    exact (updatejob_state (fun p => markproc p e.2) (newstate e.2)
      (fun p => markproc_state p e.2) before after e.1 hu).2.2.1 hdiff

/-- A two-stage pipeline in slot 1: both stages stop, then the first one is
continued.  The job is Stopped and its second stage is Stopped. -/
theorem sigchld_handler_aggregate_state_witness :
    ∃ job', (sigchld_handler
        [Job.zero,
         { pgid := 10, proc := [⟨10, RUNNING, -1⟩, ⟨11, RUNNING, -1⟩], tmodes := 0,
           state := RUNNING, command := some "a | b" }]
        [(10, 5247), (11, 5247), (10, 65535)])[1]? = some job' ∧
      (∀ s, (∀ p ∈ job'.proc, p.state = s) → job'.state = s) :=
  have h := sigchld_handler_aggregate_state
    [Job.zero,
     { pgid := 10, proc := [⟨10, RUNNING, -1⟩, ⟨11, RUNNING, -1⟩], tmodes := 0,
       state := RUNNING, command := some "a | b" }] 1
    { pgid := 10, proc := [⟨10, RUNNING, -1⟩, ⟨11, RUNNING, -1⟩], tmodes := 0,
      state := RUNNING, command := some "a | b" }
    [(10, 5247), (11, 5247), (10, 65535)] rfl (by decide) rfl (by decide) (by decide)
  h.elim fun job' hj => ⟨job', hj.1, hj.2.1⟩

/-- Two runs on a two-stage pipeline in slot 1.  Both stages stop and the
first one is continued: the job is Stopped although its first process is
Running, so the state of the job is not equivalent to the state its processes
are in.  The first stage stops and is continued, then the second stage stops:
each process has been Stopped, yet the job is Running, so the state of the job
is not equivalent to the state its processes have been in either. -/
theorem sigchld_handler_state_not_equivalent :
    (¬ ∀ job', (sigchld_handler
        [Job.zero,
         { pgid := 10, proc := [⟨10, RUNNING, -1⟩, ⟨11, RUNNING, -1⟩], tmodes := 0,
           state := RUNNING, command := some "a | b" }]
        [(10, 5247), (11, 5247), (10, 65535)])[1]? = some job' →
      (job'.state = STOPPED ↔ ∀ p ∈ job'.proc, p.state = STOPPED)) ∧
    (sigchld_handler
        [Job.zero,
         { pgid := 10, proc := [⟨10, RUNNING, -1⟩, ⟨11, RUNNING, -1⟩], tmodes := 0,
           state := RUNNING, command := some "a | b" }]
        [(10, 5247)])[1]? =
      some { pgid := 10, proc := [⟨10, STOPPED, -1⟩, ⟨11, RUNNING, -1⟩], tmodes := 0,
             state := RUNNING, command := some "a | b" } ∧
    (sigchld_handler
        [Job.zero,
         { pgid := 10, proc := [⟨10, RUNNING, -1⟩, ⟨11, RUNNING, -1⟩], tmodes := 0,
           state := RUNNING, command := some "a | b" }]
        [(10, 5247), (10, 65535), (11, 5247)])[1]? =
      some { pgid := 10, proc := [⟨10, RUNNING, -1⟩, ⟨11, STOPPED, -1⟩], tmodes := 0,
             state := RUNNING, command := some "a | b" } := by
  refine ⟨?_, by decide, by decide⟩
  intro h
  have h1 := h { pgid := 10, proc := [⟨10, RUNNING, -1⟩, ⟨11, STOPPED, -1⟩], tmodes := 0,
                 state := STOPPED, command := some "a | b" } (by decide)
  revert h1
  decide

/-! ## The foreground monitor -/

theorem fgmark_exit (p : Proc) (status : Nat) (h1 : WIFSTOPPED status = false)
    (h2 : WIFCONTINUED status = false) :
    fgmark p status = { p with state := FINISHED, exitcode := (WEXITSTATUS status : Int) } := by
  simp [fgmark, h1, h2]

/-- With distinct pids the search updates exactly the process with this pid. -/
theorem findproc_nodup (mark : Proc → Proc) (ns : Int) (hmark : ∀ p, (mark p).state = ns)
    (pid : Int) :
    ∀ ps : List Proc, (ps.map Proc.pid).Nodup → pid ∈ ps.map Proc.pid →
      findproc mark pid ps =
        some (ps.map (fun p => if p.pid = pid then mark p else p), ns) := by
  intro ps
  induction ps with
  | nil => intro _ h; simp at h
  | cons a ps ih =>
    intro hnd hmem
    simp only [List.map_cons, List.nodup_cons] at hnd
    by_cases ha : a.pid = pid
    · have hrest : ps.map (fun p => if p.pid = pid then mark p else p) = ps := by
        conv_rhs => rw [← List.map_id ps]
        apply List.map_congr_left
        intro q hq
        have : q.pid ≠ pid := by
          intro hqp
          apply hnd.1
          rw [ha, ← hqp]
          exact List.mem_map_of_mem _ hq
        simp [this]
      simp [findproc, ha, hrest, hmark]
    · have hmem' : pid ∈ ps.map Proc.pid := by
        simp only [List.map_cons, List.mem_cons] at hmem
        rcases hmem with h | h
        · exact absurd h.symm ha
        · exact h
      simp [findproc, ha, ih hnd.2 hmem']

theorem exited_pid (waits : List (Int × Nat)) (p : Proc) : (exited waits p).pid = p.pid := by
  unfold exited
  split <;> rfl

theorem exited_head (pid : Int) (status : Nat) (rest : List (Int × Nat)) (p : Proc)
    (hp : p.pid = pid) (h1 : WIFSTOPPED status = false) (h2 : WIFCONTINUED status = false) :
    exited ((pid, status) :: rest) p = fgmark p status := by
  rw [fgmark_exit p status h1 h2]
  simp [exited, List.lookup, hp]

theorem exited_tail (pid : Int) (status : Nat) (rest : List (Int × Nat)) (p : Proc)
    (hp : p.pid ≠ pid) : exited ((pid, status) :: rest) p = exited rest p := by
  have : (p.pid == pid) = false := by simpa using hp
  simp [exited, List.lookup, this]

theorem exited_absent (waits : List (Int × Nat)) (p : Proc)
    (hp : p.pid ∉ waits.map Prod.fst) : exited waits p = p := by
  have : waits.lookup p.pid = none := by
    induction waits with
    | nil => rfl
    | cons e rest ih =>
      obtain ⟨a, b⟩ := e
      simp only [List.map_cons, List.mem_cons, not_or] at hp
      have hne : (p.pid == a) = false := by simpa using hp.1
      simp [List.lookup, hne, ih hp.2]
  simp [exited, this]

theorem exited_present (waits : List (Int × Nat)) (p : Proc)
    (hp : p.pid ∈ waits.map Prod.fst) :
    ∃ status, (p.pid, status) ∈ waits ∧
      exited waits p = { p with state := FINISHED, exitcode := (WEXITSTATUS status : Int) } := by
  induction waits with
  | nil => simp at hp
  | cons e rest ih =>
    obtain ⟨a, b⟩ := e
    by_cases ha : p.pid = a
    · refine ⟨b, by simp [ha], ?_⟩
      simp [exited, List.lookup, ha]
    · have hmem : p.pid ∈ rest.map Prod.fst := by
        simp only [List.map_cons, List.mem_cons] at hp
        rcases hp with h | h
        · exact absurd h ha
        · exact h
      obtain ⟨status, hs, he⟩ := ih hmem
      refine ⟨status, by simp [hs], ?_⟩
      rw [exited_tail a b rest p ha, he]

theorem fgmark_pid (p : Proc) (status : Nat) : (fgmark p status).pid = p.pid := by
  unfold fgmark
  split
  · rfl
  · split <;> rfl

/-- The wait loop on a Running job whose `waits` are exits of distinct
Running processes of the job: each of these processes is Finished with its
decoded exit status, and the job is Finished once all its processes are. -/
theorem fgwait_exits :
    ∀ (waits : List (Int × Nat)) (job : Job), job.state = RUNNING →
      (job.proc.map Proc.pid).Nodup → (waits.map Prod.fst).Nodup →
      (∀ e ∈ waits, 0 < e.1 ∧ WIFSTOPPED e.2 = false ∧ WIFCONTINUED e.2 = false ∧
        ∃ p ∈ job.proc, p.pid = e.1 ∧ p.state = RUNNING) →
      fgwait job waits =
        { job with
          proc := job.proc.map (exited waits),
          state := if waits ≠ [] ∧ ∀ p ∈ job.proc.map (exited waits), p.state = FINISHED
                   then FINISHED else RUNNING } := by
  intro waits
  induction waits with
  | nil =>
    intro job hst _ _ _
    have : job.proc.map (exited []) = job.proc := by
      conv_rhs => rw [← List.map_id job.proc]
      apply List.map_congr_left
      intro p _
      simp [exited, List.lookup]
    rw [this]
    cases job
    simp_all [fgwait]
  | cons e rest ih =>
    intro job hst hnd hndw hev
    obtain ⟨pid, status⟩ := e
    obtain ⟨hpos, hs1, hs2, p0, hp0, hp0pid, hp0st⟩ := hev (pid, status) (by simp)
    simp only at hpos hs1 hs2 hp0pid
    simp only [List.map_cons, List.nodup_cons] at hndw
    have hmark : ∀ p, (fgmark p status).state = FINISHED := by
      intro p; rw [fgmark_exit p status hs1 hs2]
    have hfind := findproc_nodup (fun p => fgmark p status) FINISHED hmark pid job.proc hnd
      (by rw [← hp0pid]; exact List.mem_map_of_mem _ hp0)
    have hmap : (job.proc.map (fun p => if p.pid = pid then fgmark p status else p)).map
        (exited rest) = job.proc.map (exited ((pid, status) :: rest)) := by
      rw [List.map_map]
      apply List.map_congr_left
      intro p _
      by_cases hp : p.pid = pid
      · simp only [Function.comp, hp, if_true]
        rw [exited_head pid status rest p hp hs1 hs2]
        apply exited_absent
        rw [fgmark_pid, hp]
        exact hndw.1
      · simp only [Function.comp, hp, if_false]
        rw [exited_tail pid status rest p hp]
    have hup : updatejob (fun p => fgmark p status) job pid =
        some { job with
          proc := job.proc.map (fun p => if p.pid = pid then fgmark p status else p),
          state := if same (job.proc.map (fun p => if p.pid = pid then fgmark p status else p))
                     FINISHED then FINISHED else job.state } := by
      simp [updatejob, hfind]
    have hstep : fgwait job ((pid, status) :: rest) =
        fgwait { job with
          proc := job.proc.map (fun p => if p.pid = pid then fgmark p status else p),
          state := if same (job.proc.map (fun p => if p.pid = pid then fgmark p status else p))
                     FINISHED then FINISHED else job.state } rest := by
      simp [fgwait, hst, hpos, hup]
    rw [hstep]
    cases rest with
    | nil =>
      have hmap' := hmap
      have hid : ∀ l : List Proc, l.map (exited []) = l := by
        intro l
        conv_rhs => rw [← List.map_id l]
        apply List.map_congr_left
        intro p _
        simp [exited, List.lookup]
      rw [hid] at hmap'
      simp only [fgwait, hmap', hst, same_iff]
      simp
    | cons e2 rest2 =>
      obtain ⟨_, _, _, p2, hp2, hp2pid, hp2st⟩ := hev e2 (by simp)
      have hne2 : p2.pid ≠ pid := by
        intro h
        apply hndw.1
        rw [← h, hp2pid]
        simp
      have hnot : ¬ same (job.proc.map (fun p => if p.pid = pid then fgmark p status else p))
          FINISHED = true := by
        intro hsame
        have := (same_iff _ _).mp hsame p2
          (List.mem_map.mpr ⟨p2, hp2, by simp [hne2]⟩)
        rw [hp2st] at this
        exact absurd this (by decide)
      simp only [hnot, if_false, Bool.false_eq_true]
      rw [ih { job with
          proc := job.proc.map (fun p => if p.pid = pid then fgmark p status else p) }
        hst ?_ hndw.2 ?_]
      · simp only [hmap]
        simp
      · simp only [List.map_map]
        have : (Proc.pid ∘ fun p => if p.pid = pid then fgmark p status else p) = Proc.pid := by
          funext p
          by_cases hp : p.pid = pid <;> simp [Function.comp, hp, fgmark_pid]
        rw [this]
        exact hnd
      · intro e he
        obtain ⟨h1, h2, h3, q, hq, hqpid, hqst⟩ := hev e (by simp [he])
        refine ⟨h1, h2, h3, q, ?_, hqpid, hqst⟩
        have hneq : q.pid ≠ pid := by
          intro h
          apply hndw.1
          rw [← h, hqpid]
          exact List.mem_map_of_mem _ he
        exact List.mem_map.mpr ⟨q, hq, by simp [hneq]⟩

/-- A foreground job whose processes `monitorjob` itself sees exit: the job in
slot 0 has at least one process, its processes are Running and have distinct
pids, and the wait results are the exits of its processes in any order.  Then
`monitorjob` returns the exit status of the last
process of the job, whatever the statuses of the other processes are, and
slot 0 is free afterwards (pgid 0, no process, no command text). -/
theorem monitorjob_returns_last_exit_status (sh : Shell) (job : Job) (rest : List Job)
    (waits : List (Int × Nat)) (cur : Nat) (last : Proc)
    (hjobs : sh.jobs = job :: rest) (hst : job.state = RUNNING)
    (hall : ∀ p ∈ job.proc, p.state = RUNNING)
    (hlast : job.proc.getLast? = some last)
    (hnd : (job.proc.map Proc.pid).Nodup)
    (hperm : (waits.map Prod.fst).Perm (job.proc.map Proc.pid))
    (hpos : ∀ e ∈ waits, 0 < e.1)
    (hexit : ∀ e ∈ waits, WIFSTOPPED e.2 = false ∧ WIFCONTINUED e.2 = false) :
    ∃ status, (last.pid, status) ∈ waits ∧
      monitorjob sh waits cur =
        .ok ((WEXITSTATUS status : Int),
             { sh with jobs := { pgid := 0, proc := [], tmodes := cur, state := FINISHED,
                                 command := none } :: rest },
             [Effect.setfgpgrp sh.shell_pgrp, Effect.tcsetattr sh.shell_tmodes]) := by
  have hndw : (waits.map Prod.fst).Nodup := hperm.nodup_iff.mpr hnd
  have hev : ∀ e ∈ waits, 0 < e.1 ∧ WIFSTOPPED e.2 = false ∧ WIFCONTINUED e.2 = false ∧
      ∃ p ∈ job.proc, p.pid = e.1 ∧ p.state = RUNNING := by
    intro e he
    have hmem : e.1 ∈ job.proc.map Proc.pid := hperm.mem_iff.mp (List.mem_map_of_mem _ he)
    obtain ⟨p, hp, hpid⟩ := List.mem_map.mp hmem
    exact ⟨hpos e he, (hexit e he).1, (hexit e he).2, p, hp, hpid, hall p hp⟩
  have hloop := fgwait_exits waits job hst hnd hndw hev
  have hlastmem : last ∈ job.proc := List.mem_of_getLast?_eq_some hlast
  have hwne : waits ≠ [] := by
    intro h
    rw [h] at hperm
    have : job.proc.map Proc.pid = [] := List.Perm.eq_nil (List.Perm.symm hperm)
    rw [List.map_eq_nil_iff] at this
    rw [this] at hlastmem
    cases hlastmem
  have hfin : ∀ p ∈ job.proc.map (exited waits), p.state = FINISHED := by
    intro p hp
    obtain ⟨q, hq, hqp⟩ := List.mem_map.mp hp
    obtain ⟨status, _, he⟩ := exited_present waits q
      (hperm.mem_iff.mpr (List.mem_map_of_mem _ hq))
    rw [← hqp, he]
  obtain ⟨status, hmem, hex⟩ := exited_present waits last
    (hperm.mem_iff.mpr (List.mem_map_of_mem _ hlastmem))
  refine ⟨status, hmem, ?_⟩
  have hcond : (waits ≠ [] ∧ ∀ p ∈ job.proc.map (exited waits), p.state = FINISHED) :=
    ⟨hwne, hfin⟩
  rw [if_pos hcond] at hloop
  have hgl : (job.proc.map (exited waits)).getLast? =
      some { last with state := FINISHED, exitcode := (WEXITSTATUS status : Int) } := by
    rw [List.getLast?_map, hlast, Option.map_some', hex]
  simp [monitorjob, hjobs, jobAt, hloop, jobstate, exitcode, hgl, deljob, setJob, FINISHED,
    STOPPED]

/-- The three stages of a pipeline exit with 7 (last stage, reaped first), 0
and 0: the monitor returns 7 and frees slot 0. -/
theorem monitorjob_returns_last_exit_status_witness :
    monitorjob
        { jobs := [{ pgid := 10,
                     proc := [⟨10, RUNNING, -1⟩, ⟨11, RUNNING, -1⟩, ⟨12, RUNNING, -1⟩],
                     tmodes := 0, state := RUNNING, command := some "a | b | c" }],
          shell_tmodes := 5, shell_pgrp := 1 }
        [(12, 1792), (10, 0), (11, 0)] 9 =
      .ok (7,
           { jobs := [{ pgid := 0, proc := [], tmodes := 9, state := FINISHED,
                        command := none }],
             shell_tmodes := 5, shell_pgrp := 1 },
           [Effect.setfgpgrp 1, Effect.tcsetattr 5]) := by
  obtain ⟨status, hmem, h⟩ := monitorjob_returns_last_exit_status
    { jobs := [{ pgid := 10,
                 proc := [⟨10, RUNNING, -1⟩, ⟨11, RUNNING, -1⟩, ⟨12, RUNNING, -1⟩],
                 tmodes := 0, state := RUNNING, command := some "a | b | c" }],
      shell_tmodes := 5, shell_pgrp := 1 }
    { pgid := 10, proc := [⟨10, RUNNING, -1⟩, ⟨11, RUNNING, -1⟩, ⟨12, RUNNING, -1⟩],
      tmodes := 0, state := RUNNING, command := some "a | b | c" }
    [] [(12, 1792), (10, 0), (11, 0)] 9 ⟨12, RUNNING, -1⟩
    rfl rfl (by decide) rfl (by decide) (by decide) (by decide) (by decide)
  have hs : status = 1792 := by
    simp at hmem
    exact hmem
  subst hs
  rw [h]
  rfl

/-- C3 (where the code departs from it): the pipeline `a | b` runs in the
background in slot 1 with the processes 10 and 11.  Its last stage 11 exits
with status 7 (wait status 1792) and is reaped by `sigchld_handler`, which
stores the wait status as it is; the job stays Running.  The job is then
resumed in the foreground (`movejob(1, 0)` of `resumejob`) and `monitorjob`
waits: 10 exits with 0, all processes have exited, and `monitorjob` returns
1792, the stored wait status of the last process, where its exit status is
7.  Slot 0 is free afterwards. -/
theorem monitorjob_returns_raw_status_of_reaped_process :
    sigchld_handler
        [Job.zero,
         { pgid := 10, proc := [⟨10, RUNNING, -1⟩, ⟨11, RUNNING, -1⟩], tmodes := 5,
           state := RUNNING, command := some "a | b" }]
        [(11, 1792)] =
      [Job.zero,
       { pgid := 10, proc := [⟨10, RUNNING, -1⟩, ⟨11, FINISHED, 1792⟩], tmodes := 5,
         state := RUNNING, command := some "a | b" }] ∧
    movejob
        [Job.zero,
         { pgid := 10, proc := [⟨10, RUNNING, -1⟩, ⟨11, FINISHED, 1792⟩], tmodes := 5,
           state := RUNNING, command := some "a | b" }] 1 0 =
      .ok [{ pgid := 10, proc := [⟨10, RUNNING, -1⟩, ⟨11, FINISHED, 1792⟩], tmodes := 5,
             state := RUNNING, command := some "a | b" }, Job.zero] ∧
    monitorjob
        { jobs := [{ pgid := 10, proc := [⟨10, RUNNING, -1⟩, ⟨11, FINISHED, 1792⟩],
                     tmodes := 5, state := RUNNING, command := some "a | b" }, Job.zero],
          shell_tmodes := 5, shell_pgrp := 1 }
        [(10, 0)] 9 =
      .ok (1792,
           { jobs := [{ pgid := 0, proc := [], tmodes := 9, state := FINISHED,
                        command := none }, Job.zero],
             shell_tmodes := 5, shell_pgrp := 1 },
           [Effect.setfgpgrp 1, Effect.tcsetattr 5]) ∧
    WIFSTOPPED 1792 = false ∧ WIFCONTINUED 1792 = false ∧ WIFSIGNALED 1792 = false ∧
    WEXITSTATUS 1792 = 7 := by
  decide

/-! ## Allocation of a slot -/

theorem scanfree_some :
    ∀ (l : List Job) (j r : Int), scanfree l j = some r →
      ∃ i : Nat, r = j + i ∧ (∃ free, l[i]? = some free ∧ free.pgid = 0) ∧
        ∀ i' < i, ∀ o, l[i']? = some o → o.pgid ≠ 0 := by
  intro l
  induction l with
  | nil => intro j r h; simp [scanfree] at h
  | cons a l ih =>
    intro j r h
    by_cases ha : a.pgid = 0
    · simp [scanfree, ha] at h
      exact ⟨0, by simp [h], ⟨a, by simp, ha⟩, by intro i' hi'; omega⟩
    · simp only [scanfree, ha, if_false] at h
      obtain ⟨i, hr, hfree, hfirst⟩ := ih (j + 1) r h
      refine ⟨i + 1, by rw [hr]; push_cast; ring, by simpa using hfree, ?_⟩
      intro i' hi' o ho
      cases i' with
      | zero => simp at ho; rw [← ho]; exact ha
      | succ n => exact hfirst n (by omega) o (by simpa using ho)

theorem scanfree_none :
    ∀ (l : List Job) (j : Int), scanfree l j = none → ∀ o ∈ l, o.pgid ≠ 0 := by
  intro l
  induction l with
  | nil => intro j _ o ho; cases ho
  | cons a l ih =>
    intro j h o ho
    by_cases ha : a.pgid = 0
    · simp [scanfree, ha] at h
    · simp only [scanfree, ha, if_false] at h
      rcases List.mem_cons.mp ho with h1 | h1
      · rw [h1]; exact ha
      · exact ih (j + 1) h o h1

/-- The slot `allocjob` yields: the lowest free slot from 1 on, or a new slot
at the end of the table when no slot from 1 on is free. -/
theorem allocjob_cases (jobs : List Job) :
    (∃ k : Nat, 1 ≤ k ∧ k < jobs.length ∧ allocjob jobs = ((k : Int), jobs) ∧
      (∃ free, jobs[k]? = some free ∧ free.pgid = 0) ∧
      ∀ i, 1 ≤ i → i < k → ∀ o, jobs[i]? = some o → o.pgid ≠ 0) ∨
    (allocjob jobs = ((jobs.length : Int), jobs ++ [Job.zero]) ∧
      ∀ i, 1 ≤ i → ∀ o, jobs[i]? = some o → o.pgid ≠ 0) := by
  unfold allocjob
  cases h : scanfree (jobs.drop 1) BG with
  | some r =>
    left
    obtain ⟨i, hr, ⟨free, hfree, hpg⟩, hfirst⟩ := scanfree_some _ _ _ h
    have hfree' : jobs[i + 1]? = some free := by simpa [List.getElem?_drop] using hfree
    have hlt : i + 1 < jobs.length := by
      rcases Nat.lt_or_ge (i + 1) jobs.length with hl | hl
      · exact hl
      · rw [List.getElem?_eq_none hl] at hfree'; cases hfree'
    refine ⟨i + 1, by omega, hlt, ?_, ⟨free, hfree', hpg⟩, ?_⟩
    · simp [hr, BG]; ring
    · intro n h1 hn o ho
      obtain ⟨m, rfl⟩ : ∃ m, n = m + 1 := ⟨n - 1, by omega⟩
      exact hfirst m (by omega) o (by simpa [List.getElem?_drop] using ho)
  | none =>
    right
    refine ⟨rfl, ?_⟩
    intro n h1 o ho
    obtain ⟨m, rfl⟩ : ∃ m, n = m + 1 := ⟨n - 1, by omega⟩
    have : (jobs.drop 1)[m]? = some o := by simpa [List.getElem?_drop] using ho
    exact scanfree_none _ _ h o (List.getElem?_mem this)

/-- C4: when the wait loop leaves the foreground job Stopped, `monitorjob`
returns 0, slot 0 is free afterwards (a zeroed record), and the job record as
the loop left it, with the terminal modes just saved, is in slot `k`: the
lowest slot from 1 on that was free, or a new slot at the end of the table
when none was free.  No other slot changes. -/
theorem monitorjob_stopped_moves_to_background (sh : Shell) (job : Job) (rest : List Job)
    (waits : List (Int × Nat)) (cur : Nat)
    (hjobs : sh.jobs = job :: rest) (hstop : (fgwait job waits).state = STOPPED) :
    ∃ (k : Nat) (jobs' : List Job),
      monitorjob sh waits cur =
        .ok (0, { sh with jobs := jobs' },
             [Effect.setfgpgrp sh.shell_pgrp, Effect.tcsetattr sh.shell_tmodes]) ∧
      1 ≤ k ∧
      jobs'[0]? = some Job.zero ∧
      jobs'[k]? = some { fgwait job waits with tmodes := cur } ∧
      ((k < sh.jobs.length ∧ (∃ free, sh.jobs[k]? = some free ∧ free.pgid = 0) ∧
          (∀ i, 1 ≤ i → i < k → ∀ o, sh.jobs[i]? = some o → o.pgid ≠ 0) ∧
          jobs' = (Job.zero :: rest).set k { fgwait job waits with tmodes := cur }) ∨
        (k = sh.jobs.length ∧ (∀ i, 1 ≤ i → ∀ o, sh.jobs[i]? = some o → o.pgid ≠ 0) ∧
          jobs' = Job.zero :: (rest ++ [{ fgwait job waits with tmodes := cur }]))) := by
  have hnf : ¬ (fgwait job waits).state = FINISHED := by rw [hstop]; decide
  have hjs : jobstate ({ fgwait job waits with tmodes := cur } :: rest) 0 0 =
      .ok (STOPPED, 0, { fgwait job waits with tmodes := cur } :: rest) := by
    have hne : ¬ STOPPED = FINISHED := by decide
    simp [jobstate, jobAt, hstop, hne]
  have hslots : ∀ (i : Nat), 1 ≤ i → ∀ o,
      ({ fgwait job waits with tmodes := cur } :: rest)[i]? = some o → sh.jobs[i]? = some o := by
    intro i hi o ho
    obtain ⟨m, rfl⟩ : ∃ m, i = m + 1 := ⟨i - 1, by omega⟩
    rw [hjobs]
    simpa using ho
  rcases allocjob_cases ({ fgwait job waits with tmodes := cur } :: rest) with
    ⟨k, hk1, hklt, halloc, ⟨free, hfree, hpg⟩, hfirst⟩ | ⟨halloc, hnone⟩
  · obtain ⟨m, rfl⟩ : ∃ m, k = m + 1 := ⟨k - 1, by omega⟩
    have hfree' : rest[m]? = some free := by simpa using hfree
    have hm : m < rest.length := by simpa using hklt
    refine ⟨m + 1, (Job.zero :: rest).set (m + 1) { fgwait job waits with tmodes := cur },
      ?_, hk1, by simp, ?_, Or.inl ⟨?_, ⟨free, hslots _ hk1 _ hfree, hpg⟩, ?_, rfl⟩⟩
    · have hidx : ((m : Int) + 1).toNat = m + 1 := by omega
      have hneg : ¬ ((m : Int) + 1 < 0) := by omega
      have hnn : (0 : Int) ≤ (m : Int) + 1 := by omega
      have hget : rest[m] = free := by
        rw [List.getElem?_eq_getElem hm] at hfree'
        exact Option.some.inj hfree'
      simp [monitorjob, hjobs, jobAt, hjs, halloc, movejob, setJob, hidx, hneg, hnn, hfree',
        hpg, hm, hget]
    · simp [List.getElem?_set, hm]
    · rw [hjobs]; simpa using hm
    · intro i h1 hi o ho
      obtain ⟨n, rfl⟩ : ∃ n, i = n + 1 := ⟨i - 1, by omega⟩
      rw [hjobs] at ho
      exact hfirst (n + 1) h1 hi o (by simpa using ho)
  · refine ⟨sh.jobs.length, Job.zero :: (rest ++ [{ fgwait job waits with tmodes := cur }]),
      ?_, by rw [hjobs]; simp, by simp, ?_, Or.inr ⟨rfl, ?_, rfl⟩⟩
    · have hidx : ((rest.length : Int) + 1).toNat = rest.length + 1 := by omega
      have hneg : ¬ ((rest.length : Int) + 1 < 0) := by omega
      have hnn : (0 : Int) ≤ (rest.length : Int) + 1 := by omega
      simp [monitorjob, hjobs, jobAt, hjs, halloc, movejob, setJob, hidx, hneg, hnn, Job.zero]
    · rw [hjobs]; simp
    · intro i h1 o ho
      obtain ⟨n, rfl⟩ : ∃ n, i = n + 1 := ⟨i - 1, by omega⟩
      rw [hjobs] at ho
      exact hnone (n + 1) h1 o (by simpa using ho)

/-- All three stages of the foreground pipeline stop: the job goes to the new
slot 1 and the monitor returns 0. -/
theorem monitorjob_stopped_moves_to_background_witness :
    monitorjob
        { jobs := [{ pgid := 10,
                     proc := [⟨10, RUNNING, -1⟩, ⟨11, RUNNING, -1⟩, ⟨12, RUNNING, -1⟩],
                     tmodes := 0, state := RUNNING, command := some "a | b | c" }],
          shell_tmodes := 5, shell_pgrp := 1 }
        [(12, 5247), (10, 5247), (11, 5247)] 9 =
      .ok (0,
           { jobs := [Job.zero,
                      { pgid := 10,
                        proc := [⟨10, STOPPED, -1⟩, ⟨11, STOPPED, -1⟩, ⟨12, STOPPED, -1⟩],
                        tmodes := 9, state := STOPPED, command := some "a | b | c" }],
             shell_tmodes := 5, shell_pgrp := 1 },
           [Effect.setfgpgrp 1, Effect.tcsetattr 5]) := by
  obtain ⟨k, jobs', h, _, _, _, hk⟩ := monitorjob_stopped_moves_to_background
    { jobs := [{ pgid := 10,
                 proc := [⟨10, RUNNING, -1⟩, ⟨11, RUNNING, -1⟩, ⟨12, RUNNING, -1⟩],
                 tmodes := 0, state := RUNNING, command := some "a | b | c" }],
      shell_tmodes := 5, shell_pgrp := 1 }
    { pgid := 10, proc := [⟨10, RUNNING, -1⟩, ⟨11, RUNNING, -1⟩, ⟨12, RUNNING, -1⟩],
      tmodes := 0, state := RUNNING, command := some "a | b | c" }
    [] [(12, 5247), (10, 5247), (11, 5247)] 9 rfl (by decide)
  rw [h]
  rcases hk with ⟨hlt, _⟩ | ⟨_, _, hj⟩
  · simp at hlt
    omega
  · rw [hj]
    rfl

/-! ## `addjob` and `addproc` -/

/-- C5: on a table with at least slot 0, a foreground request (`bg = 0`)
returns slot 0; a background request returns the lowest slot from 1 on whose
pgid is 0, or, when there is none, the index of the one slot the table grows
by.  In each case the record at the slot returned has the given pgid, the state
Running, no process and no command text, and no other slot changes. -/
theorem addjob_slot (sh : Shell) (pgid : Int) (bg : Int) (hne : sh.jobs ≠ []) :
    (bg = 0 →
      addjob sh pgid bg =
        .ok (0, { sh with
          jobs := sh.jobs.set 0
            { pgid := pgid, proc := [], tmodes := sh.shell_tmodes, state := RUNNING,
              command := none } })) ∧
    (bg ≠ 0 →
      (∃ k : Nat, 1 ≤ k ∧ k < sh.jobs.length ∧
        (∃ free, sh.jobs[k]? = some free ∧ free.pgid = 0) ∧
        (∀ i, 1 ≤ i → i < k → ∀ o, sh.jobs[i]? = some o → o.pgid ≠ 0) ∧
        addjob sh pgid bg =
          .ok ((k : Int), { sh with
            jobs := sh.jobs.set k
              { pgid := pgid, proc := [], tmodes := sh.shell_tmodes, state := RUNNING,
                command := none } })) ∨
      ((∀ i, 1 ≤ i → ∀ o, sh.jobs[i]? = some o → o.pgid ≠ 0) ∧
        addjob sh pgid bg =
          .ok ((sh.jobs.length : Int), { sh with
            jobs := sh.jobs ++
              [{ pgid := pgid, proc := [], tmodes := sh.shell_tmodes, state := RUNNING,
                 command := none }] }))) := by
  have hpos : 0 < sh.jobs.length := List.length_pos.mpr hne
  constructor
  · intro hbg
    simp [addjob, hbg, setJob, FG, hpos]
  · intro hbg
    rcases allocjob_cases sh.jobs with ⟨k, hk1, hklt, halloc, hfree, hfirst⟩ | ⟨halloc, hnone⟩
    · left
      refine ⟨k, hk1, hklt, hfree, hfirst, ?_⟩
      simp [addjob, hbg, halloc, setJob, hklt]
    · right
      refine ⟨hnone, ?_⟩
      simp [addjob, hbg, halloc, setJob]

/-- A foreground request on a table of three slots. -/
theorem addjob_slot_witness :
    addjob
        { jobs := [Job.zero,
                   { pgid := 10, proc := [⟨10, RUNNING, -1⟩], tmodes := 5, state := RUNNING,
                     command := some "a" },
                   Job.zero],
          shell_tmodes := 5, shell_pgrp := 1 } 20 0 =
      .ok (0,
        { jobs := [{ pgid := 20, proc := [], tmodes := 5, state := RUNNING, command := none },
                   { pgid := 10, proc := [⟨10, RUNNING, -1⟩], tmodes := 5, state := RUNNING,
                     command := some "a" },
                   Job.zero],
          shell_tmodes := 5, shell_pgrp := 1 }) :=
  (addjob_slot
    { jobs := [Job.zero,
               { pgid := 10, proc := [⟨10, RUNNING, -1⟩], tmodes := 5, state := RUNNING,
                 command := some "a" },
               Job.zero],
      shell_tmodes := 5, shell_pgrp := 1 } 20 0 (by decide)).1 rfl

theorem intercalate_go_append (sep x : String) :
    ∀ (l : List String) (acc : String),
      String.intercalate.go (x ++ acc) sep l = x ++ String.intercalate.go acc sep l := by
  intro l
  induction l with
  | nil => intro acc; rfl
  | cons a l ih =>
    intro acc
    simp only [String.intercalate.go]
    rw [← ih]
    simp [String.append_assoc]

theorem mkcommand_fold (l : List String) :
    ∀ acc : String,
      l.foldl (fun c t => strapp (strapp c " ") t) (some acc) =
        some (String.intercalate.go acc " " l) := by
  induction l with
  | nil => intro acc; rfl
  | cons a l ih =>
    intro acc
    simp only [List.foldl_cons, strapp, String.intercalate.go]
    exact ih _

theorem strapp_none (s : String) : strapp none s = some s := rfl

theorem strapp_some (d s : String) : strapp (some d) s = some (d ++ s) := rfl

theorem mkcommand_none (argv : List String) (h : argv ≠ []) :
    mkcommand none argv = .ok (some (String.intercalate " " argv)) := by
  cases argv with
  | nil => exact absurd rfl h
  | cons a as =>
    simp only [mkcommand, Option.isSome_none, strapp_none, String.intercalate]
    simp only [Bool.false_eq_true, if_false, strapp_none]
    rw [mkcommand_fold]

theorem mkcommand_some (c : String) (argv : List String) (h : argv ≠ []) :
    mkcommand (some c) argv = .ok (some (c ++ " | " ++ String.intercalate " " argv)) := by
  cases argv with
  | nil => exact absurd rfl h
  | cons a as =>
    simp only [mkcommand, Option.isSome_some, strapp_some, String.intercalate, if_true]
    rw [mkcommand_fold, String.append_assoc, intercalate_go_append, intercalate_go_append,
      ← String.append_assoc]

theorem getElem?_lt {α : Type} (l : List α) (k : Nat) (a : α) (h : l[k]? = some a) :
    k < l.length := by
  rcases Nat.lt_or_ge k l.length with hl | hl
  · exact hl
  · rw [List.getElem?_eq_none hl] at h; cases h

theorem set_same {α : Type} :
    ∀ (l : List α) (k : Nat) (a : α), l[k]? = some a → l.set k a = l := by
  intro l
  induction l with
  | nil => intro k a h; simp at h
  | cons x l ih =>
    intro k a h
    cases k with
    | zero => simp at h; simp [h]
    | succ k => simp at h; simp [ih k a h]

theorem jobAt_nat (jobs : List Job) (k : Nat) (job : Job) (h : jobs[k]? = some job) :
    jobAt jobs (k : Int) = .ok job := by
  have hneg : ¬ ((k : Int) < 0) := by omega
  simp [jobAt, hneg, h]

theorem setJob_nat (jobs : List Job) (k : Nat) (job : Job) (h : k < jobs.length) :
    setJob jobs (k : Int) job = .ok (jobs.set k job) := by
  simp [setJob, h]

theorem addproc_at (jobs : List Job) (k : Nat) (job : Job) (pid : Int) (argv : List String)
    (cmd : Option String) (hk : jobs[k]? = some job)
    (hcmd : mkcommand job.command argv = .ok cmd) :
    addproc jobs (k : Int) pid argv =
      .ok (jobs.set k { job with
        proc := job.proc ++ [{ pid := pid, state := RUNNING, exitcode := -1 }],
        command := cmd }) := by
  have hlt := getElem?_lt jobs k job hk
  simp [addproc, hlt, jobAt_nat jobs k job hk, hcmd, setJob_nat jobs k _ hlt]

theorem addprocs_some (k : Nat) :
    ∀ (calls : List (Int × List String)) (jobs : List Job) (job : Job) (acc : String),
      jobs[k]? = some job → job.command = some acc → (∀ c ∈ calls, c.2 ≠ []) →
      addprocs jobs (k : Int) calls =
        .ok (jobs.set k { job with
          proc := job.proc ++ calls.map (fun c => { pid := c.1, state := RUNNING, exitcode := -1 }),
          command := some (String.intercalate.go acc " | "
            (calls.map (fun c => String.intercalate " " c.2))) }) := by
  intro calls
  induction calls with
  | nil =>
    intro jobs job acc hk hcmd _
    simp only [addprocs, String.intercalate.go, List.map_nil, List.append_nil]
    rw [← hcmd, set_same jobs k job hk]
  | cons c calls ih =>
    intro jobs job acc hk hcmd hargs
    obtain ⟨pid, argv⟩ := c
    have hargv : argv ≠ [] := hargs (pid, argv) (by simp)
    have hmk : mkcommand job.command argv =
        .ok (some (acc ++ " | " ++ String.intercalate " " argv)) := by
      rw [hcmd]; exact mkcommand_some acc argv hargv
    have hlt := getElem?_lt jobs k job hk
    simp only [addprocs, addproc_at jobs k job pid argv _ hk hmk]
    have hk1 : (jobs.set k { job with
        proc := job.proc ++ [{ pid := pid, state := RUNNING, exitcode := -1 }],
        command := some (acc ++ " | " ++ String.intercalate " " argv) })[k]? =
        some { job with
          proc := job.proc ++ [{ pid := pid, state := RUNNING, exitcode := -1 }],
          command := some (acc ++ " | " ++ String.intercalate " " argv) } := by
      simp [hlt]
    rw [ih _ _ (acc ++ " | " ++ String.intercalate " " argv) hk1 rfl
      (fun c hc => hargs c (by simp [hc]))]
    simp [List.set_set, String.intercalate.go]

/-- The record `addjob` leaves in the slot it returns. -/
theorem addjob_fresh (sh : Shell) (pgid : Int) (bg : Int) (hne : sh.jobs ≠ []) :
    ∃ (k : Nat) (sh' : Shell), addjob sh pgid bg = .ok ((k : Int), sh') ∧
      sh'.jobs[k]? = some { pgid := pgid, proc := [], tmodes := sh.shell_tmodes,
                            state := RUNNING, command := none } := by
  have hpos : 0 < sh.jobs.length := List.length_pos.mpr hne
  by_cases hbg : bg = 0
  · refine ⟨0, { sh with
        jobs := sh.jobs.set 0
          { pgid := pgid, proc := [], tmodes := sh.shell_tmodes, state := RUNNING,
            command := none } }, ?_, ?_⟩
    · simp [addjob, hbg, setJob, FG, hpos]
    · simp [hpos]
  · rcases allocjob_cases sh.jobs with ⟨k, _, hklt, halloc, _, _⟩ | ⟨halloc, _⟩
    · refine ⟨k, { sh with
          jobs := sh.jobs.set k
            { pgid := pgid, proc := [], tmodes := sh.shell_tmodes, state := RUNNING,
              command := none } }, ?_, ?_⟩
      · simp [addjob, hbg, halloc, setJob, hklt]
      · simp [hklt]
    · refine ⟨sh.jobs.length, { sh with
          jobs := sh.jobs ++
            [{ pgid := pgid, proc := [], tmodes := sh.shell_tmodes, state := RUNNING,
               command := none }] }, ?_, ?_⟩
      · simp [addjob, hbg, halloc, setJob]
      · simp

theorem addprocs_none (k : Nat) (calls : List (Int × List String)) (jobs : List Job)
    (job : Job) (hk : jobs[k]? = some job) (hcmd : job.command = none)
    (hargs : ∀ c ∈ calls, c.2 ≠ []) :
    addprocs jobs (k : Int) calls =
      .ok (jobs.set k { job with
        proc := job.proc ++ calls.map (fun c => { pid := c.1, state := RUNNING, exitcode := -1 }),
        command := if calls = [] then none
          else some (String.intercalate " | "
            (calls.map (fun c => String.intercalate " " c.2))) }) := by
  have hlt := getElem?_lt _ _ _ hk
  cases calls with
  | nil =>
    simp only [addprocs, List.map_nil, List.append_nil, if_true]
    rw [← hcmd, set_same jobs k job hk]
  | cons c calls =>
    obtain ⟨pid, argv⟩ := c
    have hargv : argv ≠ [] := hargs (pid, argv) (by simp)
    have hmk : mkcommand job.command argv = .ok (some (String.intercalate " " argv)) := by
      rw [hcmd]; exact mkcommand_none argv hargv
    have hk1 : (jobs.set k { job with
        proc := job.proc ++ [{ pid := pid, state := RUNNING, exitcode := -1 }],
        command := some (String.intercalate " " argv) })[k]? =
        some { job with
          proc := job.proc ++ [{ pid := pid, state := RUNNING, exitcode := -1 }],
          command := some (String.intercalate " " argv) } := by
      simp [hlt]
    simp only [addprocs, addproc_at jobs k job pid argv _ hk hmk]
    rw [addprocs_some k calls _ _ (String.intercalate " " argv) hk1 rfl
      (fun c hc => hargs c (by simp [hc]))]
    simp [List.set_set, String.intercalate]

/-- C6: after `addjob`, the calls `addproc` with the pids `p1..pk` and
non-empty argument vectors all succeed, and the job in the slot has exactly
the processes `p1..pk` in this order, each Running with exit code -1; its
command text is the stages joined with `" | "`, each stage being its tokens
joined with single spaces (no text when there was no call). -/
theorem addproc_sequence (sh : Shell) (pgid bg : Int) (calls : List (Int × List String))
    (hne : sh.jobs ≠ []) (hargs : ∀ c ∈ calls, c.2 ≠ []) :
    ∃ (j : Int) (sh' : Shell) (jobs' : List Job),
      addjob sh pgid bg = .ok (j, sh') ∧ addprocs sh'.jobs j calls = .ok jobs' ∧
      jobAt jobs' j =
        .ok { pgid := pgid,
              proc := calls.map (fun c => { pid := c.1, state := RUNNING, exitcode := -1 }),
              tmodes := sh.shell_tmodes, state := RUNNING,
              command := if calls = [] then none
                else some (String.intercalate " | "
                  (calls.map (fun c => String.intercalate " " c.2))) } := by
  obtain ⟨k, sh', hadd, hk⟩ := addjob_fresh sh pgid bg hne
  have hlt := getElem?_lt _ _ _ hk
  refine ⟨k, sh', _, hadd, addprocs_none k calls sh'.jobs _ hk rfl hargs, ?_⟩
  apply jobAt_nat
  simp [hlt]

/-- A foreground pipeline of two stages, `ls -l | wc`. -/
theorem addproc_sequence_witness :
    ∃ (j : Int) (sh' : Shell) (jobs' : List Job),
      addjob { jobs := [Job.zero], shell_tmodes := 5, shell_pgrp := 1 } 10 0 = .ok (j, sh') ∧
      addprocs sh'.jobs j [(10, ["ls", "-l"]), (11, ["wc"])] = .ok jobs' ∧
      jobAt jobs' j =
        .ok { pgid := 10, proc := [⟨10, RUNNING, -1⟩, ⟨11, RUNNING, -1⟩], tmodes := 5,
              state := RUNNING, command := some "ls -l | wc" } := by
  obtain ⟨j, sh', jobs', h1, h2, h3⟩ := addproc_sequence
    { jobs := [Job.zero], shell_tmodes := 5, shell_pgrp := 1 } 10 0
    [(10, ["ls", "-l"]), (11, ["wc"])] (by decide) (by decide)
  refine ⟨j, sh', jobs', h1, h2, ?_⟩
  rw [h3]
  decide

/-! ## `deljob`, `killjob`, `resumejob` -/

/-- C7: `deljob` on a job that is Running or Stopped fails its assertion, so
that the record is not freed; on a Finished job it leaves the slot free (pgid
0) with no process and no command text. -/
theorem deljob_requires_finished (job : Job) :
    ((job.state = RUNNING ∨ job.state = STOPPED) → deljob job = .error .assertion) ∧
    (job.state = FINISHED →
      deljob job = .ok { pgid := 0, proc := [], tmodes := job.tmodes, state := FINISHED,
                         command := none }) := by
  constructor
  · intro h
    have hne : ¬ job.state = FINISHED := by
      rcases h with h | h <;> rw [h] <;> decide
    simp [deljob, hne]
  · intro h
    simp [deljob, h]

/-- A Stopped pipeline is not reclaimed; once Finished it is. -/
theorem deljob_requires_finished_witness :
    deljob { pgid := 10, proc := [⟨10, STOPPED, -1⟩, ⟨11, STOPPED, -1⟩], tmodes := 5,
             state := STOPPED, command := some "a | b" } = .error .assertion ∧
    deljob { pgid := 10, proc := [⟨10, FINISHED, 0⟩, ⟨11, FINISHED, 0⟩], tmodes := 5,
             state := FINISHED, command := some "a | b" } =
      .ok { pgid := 0, proc := [], tmodes := 5, state := FINISHED, command := none } :=
  ⟨(deljob_requires_finished
      { pgid := 10, proc := [⟨10, STOPPED, -1⟩, ⟨11, STOPPED, -1⟩], tmodes := 5,
        state := STOPPED, command := some "a | b" }).1 (Or.inr rfl),
   (deljob_requires_finished
      { pgid := 10, proc := [⟨10, FINISHED, 0⟩, ⟨11, FINISHED, 0⟩], tmodes := 5,
        state := FINISHED, command := some "a | b" }).2 rfl⟩

/-- What `killjob` does with a slot number that is past the end of the table,
or whose slot holds a Finished job: it returns false, sends no signal and
leaves the table as it is. -/
theorem killjob_rejects (sh : Shell) (j : Int)
    (h : (sh.jobs.length : Int) ≤ j ∨ ∃ job, jobAt sh.jobs j = .ok job ∧ job.state = FINISHED) :
    killjob sh j = .ok (false, sh, []) := by
  rcases h with h | ⟨job, hj, hst⟩
  · simp [killjob, h]
  · by_cases hge : (sh.jobs.length : Int) ≤ j
    · simp [killjob, hge]
    · simp [killjob, hge, hj, hst]

/-- C8 (where the code departs from it): a negative slot number is out of
range, but it passes the test `j >= njobmax`, and `killjob` then reads
`jobs[j]` before the start of the table instead of returning false. -/
theorem killjob_negative_slot (sh : Shell) : killjob sh (-1) = .error .outOfBounds := by
  have h : ¬ ((sh.jobs.length : Int) ≤ -1) := by omega
  simp [killjob, jobAt, h]

/-- A background `resumejob` on a slot in range whose job is not Finished: it
returns true, leaves the table as it is, and its one call is
`kill(jobs[j].pgid, SIGCONT)`, with the pgid itself as the target. -/
theorem resumejob_background (sh : Shell) (j bg : Int) (waits : List (Int × Nat)) (cur : Nat)
    (job : Job) (hj : 0 ≤ j) (hbg : bg ≠ FG) (hjob : jobAt sh.jobs j = .ok job)
    (hst : job.state ≠ FINISHED) :
    resumejob sh j bg waits cur = .ok (true, sh, [Effect.kill job.pgid Signal.SIGCONT]) := by
  have hlt : ¬ (sh.jobs.length : Int) ≤ j := by
    intro hge
    have hnone : sh.jobs[j.toNat]? = none := List.getElem?_eq_none (by omega)
    have hneg : ¬ j < 0 := by omega
    simp [jobAt, hneg, hnone] at hjob
  have hneg : ¬ j < 0 := by omega
  simp [resumejob, resumeslot, hneg, hlt, hjob, hst, hbg]

/-- C10 (where the code departs from it): a stopped two-stage pipeline with
the process group 100 and the processes 100 and 101 is resumed in the
background.  `resumejob` returns true and changes no slot, but it calls
`kill(100, SIGCONT)`: the signal goes to the process 100 alone and the second
stage, 101, does not receive it, whereas `killjob` addresses the group with
`kill(-100, ..)`, which both stages receive. -/
theorem resumejob_background_signals_one_process :
    resumejob
        { jobs := [Job.zero,
                   { pgid := 100, proc := [⟨100, STOPPED, -1⟩, ⟨101, STOPPED, -1⟩], tmodes := 5,
                     state := STOPPED, command := some "a | b" }],
          shell_tmodes := 5, shell_pgrp := 1 } 1 BG [] 0 =
      .ok (true,
           { jobs := [Job.zero,
                      { pgid := 100, proc := [⟨100, STOPPED, -1⟩, ⟨101, STOPPED, -1⟩],
                        tmodes := 5, state := STOPPED, command := some "a | b" }],
             shell_tmodes := 5, shell_pgrp := 1 },
           [Effect.kill 100 Signal.SIGCONT]) ∧
    receives 1 100 100 100 = true ∧ receives 1 100 100 101 = false ∧
    killjob
        { jobs := [Job.zero,
                   { pgid := 100, proc := [⟨100, STOPPED, -1⟩, ⟨101, STOPPED, -1⟩], tmodes := 5,
                     state := STOPPED, command := some "a | b" }],
          shell_tmodes := 5, shell_pgrp := 1 } 1 =
      .ok (true,
           { jobs := [Job.zero,
                      { pgid := 100, proc := [⟨100, STOPPED, -1⟩, ⟨101, STOPPED, -1⟩],
                        tmodes := 5, state := STOPPED, command := some "a | b" }],
             shell_tmodes := 5, shell_pgrp := 1 },
           [Effect.kill (-100) Signal.SIGTERM, Effect.kill (-100) Signal.SIGCONT]) ∧
    receives 1 (-100) 100 100 = true ∧ receives 1 (-100) 100 101 = true := by
  decide

/-! ## The two updates of a process record -/

/-- The foreground monitor and the handler give a process the same state. -/
theorem fgmark_state (p : Proc) (status : Nat) :
    (fgmark p status).state = (markproc p status).state := by
  unfold fgmark markproc
  split
  · rfl
  · split <;> rfl

/-- For a stop or a continuation the two updates of a process record are the
same. -/
theorem fgmark_eq_markproc_of_not_exit (p : Proc) (status : Nat)
    (h : WIFSTOPPED status = true ∨ WIFCONTINUED status = true) :
    fgmark p status = markproc p status := by
  unfold fgmark markproc
  rcases h with h | h
  · simp [h]
  · by_cases h1 : WIFSTOPPED status = true <;> simp [h1, h]

/-- C11 (where the code departs from it): the only process of the foreground
job exits with status 7 (wait status 1792).  `monitorjob` and
`sigchld_handler` give the process and the job the same state, Finished, but
`monitorjob` records the decoded exit status 7 where `sigchld_handler` records
the raw wait status 1792, so that the two updates of the job record differ. -/
theorem monitorjob_update_differs_from_handler :
    fgwait { pgid := 10, proc := [⟨10, RUNNING, -1⟩], tmodes := 0, state := RUNNING,
             command := some "a" } [(10, 1792)] =
      { pgid := 10, proc := [⟨10, FINISHED, 7⟩], tmodes := 0, state := FINISHED,
        command := some "a" } ∧
    sigchld_handler
        [{ pgid := 10, proc := [⟨10, RUNNING, -1⟩], tmodes := 0, state := RUNNING,
           command := some "a" }] [(10, 1792)] =
      [{ pgid := 10, proc := [⟨10, FINISHED, 1792⟩], tmodes := 0, state := FINISHED,
         command := some "a" }] ∧
    updatejob (fun p => fgmark p 1792)
        { pgid := 10, proc := [⟨10, RUNNING, -1⟩], tmodes := 0, state := RUNNING,
          command := some "a" } 10 ≠
      updatejob (fun p => markproc p 1792)
        { pgid := 10, proc := [⟨10, RUNNING, -1⟩], tmodes := 0, state := RUNNING,
          command := some "a" } 10 := by
  decide

/-! ## `watchjobs` -/

/-- What `watchjobs` does with one slot whose job is Running, Stopped or
Finished (with at least one process when it is occupied and Finished). -/
theorem watchjob_spec (which j : Int) (job : Job)
    (hst : job.state = RUNNING ∨ job.state = STOPPED ∨ job.state = FINISHED)
    (hproc : job.pgid ≠ 0 → job.state = FINISHED → job.proc ≠ []) :
    watchjob which j job =
      .ok (swept which job,
        if selected which job = true then
          [Effect.print (report_line j job.state (showstr job.command) (laststatus job)
            ++ "\n")]
        else []) := by
  by_cases hpg : job.pgid = 0
  · simp [watchjob, swept, selected, hpg]
  · by_cases hsel : which = ALL ∨ job.state = which
    · rcases hst with h | h | h
      · rw [h] at hsel
        have h1 : RUNNING - 1 = 0 := by decide
        have h2 : ¬ RUNNING = FINISHED := by decide
        simp [watchjob, swept, selected, hpg, hsel, h, report_line, h1, h2,
          String.append_assoc]
      · rw [h] at hsel
        have h1 : ¬ STOPPED - 1 = 0 := by decide
        have h2 : ¬ STOPPED = FINISHED := by decide
        have h3 : ¬ STOPPED = RUNNING := by decide
        simp [watchjob, swept, selected, hpg, hsel, h, report_line, h1, h2, h3,
          String.append_assoc]
      · have hne := hproc hpg h
        obtain ⟨last, hlast⟩ : ∃ last, job.proc.getLast? = some last := by
          cases hp : job.proc.getLast? with
          | none => exact absurd (List.getLast?_eq_none_iff.mp hp) hne
          | some last => exact ⟨last, rfl⟩
        have hsel' : which = ALL ∨ FINISHED = which := by rw [← h]; exact hsel
        have h1 : ¬ (FINISHED = RUNNING ∨ FINISHED = STOPPED) := by decide
        have h2 : ¬ FINISHED = RUNNING := by decide
        have h3 : ¬ FINISHED = STOPPED := by decide
        simp only [watchjob, swept, selected, hpg, h, hsel', exitcode, hlast, deljob,
          report_line, laststatus, h1, h2, h3, if_true, if_false, ne_eq, not_false_eq_true,
          true_and, and_self, decide_True, Option.map_some', Option.getD_some, true_or, or_true]
        by_cases hsig : WIFSIGNALED (low16 last.exitcode) = true
        · simp [hsig, String.append_assoc]
        · simp [hsig, String.append_assoc]
    · simp [watchjob, swept, selected, hpg, hsel]

/-- The loop of `watchjobs` over the slots from `n` on: every slot is swept, and
the lines are those of the selected slots in increasing order. -/
theorem watchloop_spec (which : Int) :
    ∀ (rest : List Job) (n : Nat),
      (∀ job ∈ rest, job.state = RUNNING ∨ job.state = STOPPED ∨ job.state = FINISHED) →
      (∀ job ∈ rest, job.pgid ≠ 0 → job.state = FINISHED → job.proc ≠ []) →
      watchloop which rest (n : Int) =
        .ok (rest.map (swept which),
          ((List.enumFrom n rest).filter (fun x => selected which x.2)).map
            (fun x => Effect.print
              (report_line (x.1 : Int) x.2.state (showstr x.2.command) (laststatus x.2)
                ++ "\n"))) := by
  intro rest
  induction rest with
  | nil => intro n _ _; rfl
  | cons job rest ih =>
    intro n hst hproc
    have h1 := watchjob_spec which (n : Int) job (hst job (by simp)) (hproc job (by simp))
    have h2 := ih (n + 1) (fun x hx => hst x (by simp [hx])) (fun x hx => hproc x (by simp [hx]))
    have hcast : ((n : Int) + 1) = ((n + 1 : Nat) : Int) := by push_cast; rfl
    simp only [watchloop, h1, hcast, h2, List.map_cons, List.enumFrom_cons]
    by_cases hsel : selected which job = true
    · simp [hsel, List.filter_cons]
    · simp [hsel, List.filter_cons]

/-- The whole of `watchjobs`: slot 0 is kept, every slot from 1 on is swept, and
the lines are those of the selected slots in increasing order. -/
theorem watchjobs_spec (sh : Shell) (which : Int)
    (hst : ∀ job ∈ sh.jobs.tail,
      job.state = RUNNING ∨ job.state = STOPPED ∨ job.state = FINISHED)
    (hproc : ∀ job ∈ sh.jobs.tail, job.pgid ≠ 0 → job.state = FINISHED → job.proc ≠ []) :
    watchjobs sh which =
      .ok ({ sh with jobs := sh.jobs.take 1 ++ sh.jobs.tail.map (swept which) },
        ((List.enumFrom 1 sh.jobs.tail).filter (fun x => selected which x.2)).map
          (fun x => Effect.print
            (report_line (x.1 : Int) x.2.state (showstr x.2.command) (laststatus x.2)
              ++ "\n"))) := by
  cases hjobs : sh.jobs with
  | nil =>
    simp only [watchjobs, hjobs]
    cases sh
    simp_all
  | cons fg rest =>
    rw [hjobs] at hst hproc
    simp only [List.tail_cons] at hst hproc
    have hloop := watchloop_spec which rest 1 hst hproc
    have h1 : ((1 : Nat) : Int) = 1 := rfl
    rw [h1] at hloop
    simp only [watchjobs, hjobs, BG, hloop, List.tail_cons]
    simp

/-- C12: on a table whose jobs in the slots from 1 on are Running, Stopped or
Finished (an occupied Finished one having at least one process),
`watchjobs(which)` succeeds, and afterwards a slot `j >= 1` that was occupied
by a Finished job matching the filter (any Finished job when the filter is
`ALL`) is free, with pgid 0, no process and no command text; every other slot,
slot 0 and the Running and Stopped jobs among them, holds what it held. -/
theorem watchjobs_frees_finished (sh : Shell) (which : Int)
    (hst : ∀ job ∈ sh.jobs.tail,
      job.state = RUNNING ∨ job.state = STOPPED ∨ job.state = FINISHED)
    (hproc : ∀ job ∈ sh.jobs.tail, job.pgid ≠ 0 → job.state = FINISHED → job.proc ≠ []) :
    ∃ (jobs' : List Job) (out : List Effect),
      watchjobs sh which = .ok ({ sh with jobs := jobs' }, out) ∧
      jobs'.length = sh.jobs.length ∧
      ∀ (j : Nat) (job : Job), sh.jobs[j]? = some job →
        jobs'[j]? = some
          (if 1 ≤ j ∧ job.pgid ≠ 0 ∧ job.state = FINISHED ∧ (which = ALL ∨ job.state = which)
           then { job with pgid := 0, proc := [], command := none }
           else job) := by
  refine ⟨_, _, watchjobs_spec sh which hst hproc, ?_, ?_⟩
  · cases sh.jobs <;> simp
  · intro j job hj
    cases hjobs : sh.jobs with
    | nil => rw [hjobs] at hj; simp at hj
    | cons fg rest =>
      rw [hjobs] at hj
      cases j with
      | zero =>
        simp at hj
        simp [hj]
      | succ k =>
        simp only [List.getElem?_cons_succ] at hj
        simp only [List.take_succ_cons, List.take_zero, List.tail_cons, List.singleton_append,
          List.getElem?_cons_succ, List.getElem?_map, hj, Option.map_some']
        by_cases hc : job.pgid ≠ 0 ∧ job.state = FINISHED ∧ (which = ALL ∨ job.state = which)
        · have hsw : selected which job = true ∧ job.state = FINISHED :=
            ⟨decide_eq_true ⟨hc.1, hc.2.2⟩, hc.2.1⟩
          have hs : swept which job = { job with pgid := 0, proc := [], command := none } := by
            unfold swept
            rw [if_pos hsw]
          rw [hs, if_pos ⟨Nat.succ_le_succ (Nat.zero_le k), hc⟩]
        · have hsw : ¬ (selected which job = true ∧ job.state = FINISHED) := by
            intro h
            have h1 := of_decide_eq_true h.1
            exact hc ⟨h1.1, h.2, h1.2⟩
          have hs : swept which job = job := by
            unfold swept
            rw [if_neg hsw]
          rw [hs, if_neg (fun h => hc h.2)]

/-- A table with a running job in slot 1, a free slot 2, two finished jobs in
the slots 3 and 4 and a stopped job in slot 5, swept with the filter
`FINISHED`: the slots 3 and 4 are free, the slots 1 and 5 are as they were. -/
theorem watchjobs_frees_finished_witness :
    ∃ (jobs' : List Job) (out : List Effect),
      watchjobs
          { jobs :=
              [{ pgid := 5, proc := [⟨5, RUNNING, -1⟩], tmodes := 0, state := RUNNING,
                   command := some "fg" },
               { pgid := 10, proc := [⟨10, RUNNING, -1⟩], tmodes := 0, state := RUNNING,
                   command := some "sleep 5" },
               Job.zero,
               { pgid := 11, proc := [⟨11, FINISHED, 0⟩, ⟨12, FINISHED, 1792⟩], tmodes := 0,
                   state := FINISHED, command := some "a | b" },
               { pgid := 13, proc := [⟨13, FINISHED, 9⟩], tmodes := 0, state := FINISHED,
                   command := some "c" },
               { pgid := 14, proc := [⟨14, STOPPED, -1⟩], tmodes := 0, state := STOPPED,
                   command := some "vi" }],
            shell_tmodes := 5, shell_pgrp := 1 }
          FINISHED =
        .ok ({ jobs := jobs', shell_tmodes := 5, shell_pgrp := 1 }, out) ∧
      jobs'[3]? = some { pgid := 0, proc := [], tmodes := 0, state := FINISHED,
                         command := none } ∧
      jobs'[5]? = some { pgid := 14, proc := [⟨14, STOPPED, -1⟩], tmodes := 0,
                         state := STOPPED, command := some "vi" } := by
  obtain ⟨jobs', out, h, _, hslot⟩ := watchjobs_frees_finished
    { jobs :=
        [{ pgid := 5, proc := [⟨5, RUNNING, -1⟩], tmodes := 0, state := RUNNING,
             command := some "fg" },
         { pgid := 10, proc := [⟨10, RUNNING, -1⟩], tmodes := 0, state := RUNNING,
             command := some "sleep 5" },
         Job.zero,
         { pgid := 11, proc := [⟨11, FINISHED, 0⟩, ⟨12, FINISHED, 1792⟩], tmodes := 0,
             state := FINISHED, command := some "a | b" },
         { pgid := 13, proc := [⟨13, FINISHED, 9⟩], tmodes := 0, state := FINISHED,
             command := some "c" },
         { pgid := 14, proc := [⟨14, STOPPED, -1⟩], tmodes := 0, state := STOPPED,
             command := some "vi" }],
      shell_tmodes := 5, shell_pgrp := 1 }
    FINISHED (by decide) (by decide)
  refine ⟨jobs', out, h, ?_, ?_⟩
  · rw [hslot 3 _ rfl]
    decide
  · rw [hslot 5 _ rfl]
    decide

/-- C13: on a table whose jobs in the slots from 1 on are Running, Stopped or
Finished (an occupied Finished one having at least one process), what
`watchjobs(which)` prints is, for the occupied slots `j >= 1` whose job matches
the filter, taken in increasing order, the line `[j] running '<command>'`,
`[j] suspended '<command>'`, `[j] killed '<command>' by signal <n>` or
`[j] exited '<command>', status=<n>` of `report_line`, each followed by a
newline; the last two go by the status recorded for the last process. -/
theorem watchjobs_report_lines (sh : Shell) (which : Int)
    (hst : ∀ job ∈ sh.jobs.tail,
      job.state = RUNNING ∨ job.state = STOPPED ∨ job.state = FINISHED)
    (hproc : ∀ job ∈ sh.jobs.tail, job.pgid ≠ 0 → job.state = FINISHED → job.proc ≠ []) :
    ∃ sh' : Shell,
      watchjobs sh which =
        .ok (sh',
          ((List.enumFrom 1 sh.jobs.tail).filter
              (fun x => decide (x.2.pgid ≠ 0 ∧ (which = ALL ∨ x.2.state = which)))).map
            (fun x => Effect.print
              (report_line (x.1 : Int) x.2.state (showstr x.2.command) (laststatus x.2)
                ++ "\n"))) :=
  ⟨_, watchjobs_spec sh which hst hproc⟩

/-- The same table reported with the filter `ALL`: one line for each of the
slots 1, 3, 4 and 5, in this order. -/
theorem watchjobs_report_lines_witness :
    ∃ sh' : Shell,
      watchjobs
          { jobs :=
              [{ pgid := 5, proc := [⟨5, RUNNING, -1⟩], tmodes := 0, state := RUNNING,
                   command := some "fg" },
               { pgid := 10, proc := [⟨10, RUNNING, -1⟩], tmodes := 0, state := RUNNING,
                   command := some "sleep 5" },
               Job.zero,
               { pgid := 11, proc := [⟨11, FINISHED, 0⟩, ⟨12, FINISHED, 1792⟩], tmodes := 0,
                   state := FINISHED, command := some "a | b" },
               { pgid := 13, proc := [⟨13, FINISHED, 9⟩], tmodes := 0, state := FINISHED,
                   command := some "c" },
               { pgid := 14, proc := [⟨14, STOPPED, -1⟩], tmodes := 0, state := STOPPED,
                   command := some "vi" }],
            shell_tmodes := 5, shell_pgrp := 1 }
          ALL =
        .ok (sh',
          [Effect.print "[1] running \x27sleep 5\x27\n",
           Effect.print "[3] exited \x27a | b\x27, status=7\n",
           Effect.print "[4] killed \x27c\x27 by signal 9\n",
           Effect.print "[5] suspended \x27vi\x27\n"]) := by
  obtain ⟨sh', h⟩ := watchjobs_report_lines
    { jobs :=
        [{ pgid := 5, proc := [⟨5, RUNNING, -1⟩], tmodes := 0, state := RUNNING,
             command := some "fg" },
         { pgid := 10, proc := [⟨10, RUNNING, -1⟩], tmodes := 0, state := RUNNING,
             command := some "sleep 5" },
         Job.zero,
         { pgid := 11, proc := [⟨11, FINISHED, 0⟩, ⟨12, FINISHED, 1792⟩], tmodes := 0,
             state := FINISHED, command := some "a | b" },
         { pgid := 13, proc := [⟨13, FINISHED, 9⟩], tmodes := 0, state := FINISHED,
             command := some "c" },
         { pgid := 14, proc := [⟨14, STOPPED, -1⟩], tmodes := 0, state := STOPPED,
             command := some "vi" }],
      shell_tmodes := 5, shell_pgrp := 1 }
    ALL (by decide) (by decide)
  refine ⟨sh', ?_⟩
  rw [h]
  exact congrArg (fun out => Except.ok (sh', out)) (by decide)

/-! ## `do_redir` -/

/-- The loop of `do_redir` over tokens that are all words: it counts them and
leaves the array as it is. -/
theorem do_redir_loop_words (ws : List String) (rest : List Token)
    (input output : Option Token) :
    ∀ (fuel i n : Nat), i ≤ ws.length → ws.length - i ≤ fuel →
      do_redir_loop ws.length fuel i n (ws.map Token.word ++ rest) input output =
        .ok (n + (ws.length - i), ws.map Token.word ++ rest, input, output) := by
  intro fuel
  induction fuel with
  | zero =>
    intro i n hi hfuel
    have : ws.length - i = 0 := by omega
    simp [do_redir_loop, this]
  | succ fuel ih =>
    intro i n hi hfuel
    by_cases hlt : i < ws.length
    · have hget : (ws.map Token.word ++ rest)[i]? = some (Token.word ws[i]) := by
        rw [List.getElem?_append_left (by simpa using hlt)]
        simp [hlt]
      have hrec := ih (i + 1) (n + 1) (by omega) (by omega)
      simp only [do_redir_loop, hlt, if_true, hget]
      have hw : ¬ (Token.word ws[i] = Token.T_INPUT ∨ Token.word ws[i] = Token.T_OUTPUT) := by
        simp
      rw [if_neg hw, hrec]
      have : n + 1 + (ws.length - (i + 1)) = n + (ws.length - i) := by omega
      rw [this]
    · have : ws.length - i = 0 := by omega
      simp [do_redir_loop, hlt, this]

/-- On a stage of words alone, followed by a `NULL` or a separator,
`do_redir` returns the number of words and ends the words with `NULL`. -/
theorem do_redir_words (ws : List String) (sep : Token) (rest : List Token) :
    do_redir (ws.map Token.word ++ sep :: rest) ws.length none none =
      .ok (ws.length, ws.map Token.word ++ Token.null :: rest, none, none) := by
  have h := do_redir_loop_words ws (sep :: rest) none none ws.length 0 0 (by omega) (by omega)
  simp only [Nat.sub_zero, Nat.zero_add] at h
  have hset : (ws.map Token.word ++ sep :: rest).set ws.length Token.null =
      ws.map Token.word ++ Token.null :: rest := by
    have hl : (ws.map Token.word).length = ws.length := by simp
    rw [List.set_append_right _ _ (by omega)]
    simp [hl]
  simp [do_redir, h, hset]

/-- C14 (where the code departs from it): the tokens of `cat > out file`.
The tokens that are neither a marker nor a file name are `cat` and `file`, and
`do_redir` returns their count, 2; but it puts `NULL` where the marker and the
file name were and moves nothing, so that the token list it leaves, read up to
the first `NULL`, is `cat` alone. -/
theorem do_redir_leaves_gap :
    do_redir [Token.word "cat", Token.T_OUTPUT, Token.word "out", Token.word "file",
              Token.null] 4 none none =
      .ok (2, [Token.word "cat", Token.null, Token.null, Token.word "file", Token.null],
           none, some (Token.word "out")) ∧
    argv [Token.word "cat", Token.null, Token.null, Token.word "file", Token.null] =
      .ok ["cat"] ∧
    do_redir [Token.T_INPUT, Token.word "in", Token.word "cat", Token.null] 3 none none =
      .ok (1, [Token.null, Token.null, Token.word "cat", Token.null],
           some (Token.word "in"), none) ∧
    argv [Token.null, Token.null, Token.word "cat", Token.null] = .ok [] := by
  decide

/-! ## `do_pipeline` -/

theorem stage_len_words (nt : Int) (sep : Token) (rest : List Token)
    (hsep : sep = Token.null ∨ sep = Token.T_PIPE) :
    ∀ (ws : List String) (i : Nat), ((i + ws.length : Nat) : Int) ≤ nt →
      stage_len nt (ws.map Token.word ++ sep :: rest) i = .ok (i + ws.length) := by
  intro ws
  induction ws with
  | nil =>
    intro i _
    rcases hsep with h | h <;> simp [stage_len, h]
  | cons w ws ih =>
    intro i hi
    have hi' : ((i + 1 + ws.length : Nat) : Int) ≤ nt := by
      simp only [List.length_cons] at hi
      have : i + 1 + ws.length = i + (ws.length + 1) := by omega
      rw [this]; exact hi
    have hle : (i : Int) ≤ nt := by
      simp only [List.length_cons] at hi
      omega
    simp only [List.map_cons, List.cons_append, stage_len]
    have hc : (i : Int) ≤ nt ∧ Token.word w ≠ Token.null ∧ Token.word w ≠ Token.T_PIPE :=
      ⟨hle, by simp, by simp⟩
    rw [if_pos hc]
    have := ih (i + 1) hi'
    simp only [List.append_eq] at this ⊢
    rw [this]
    simp only [List.length_cons]
    congr 1
    omega

theorem argv_words (ws : List String) (rest : List Token) :
    argv (ws.map Token.word ++ Token.null :: rest) = .ok ws := by
  induction ws with
  | nil => rfl
  | cons w ws ih => simp [argv, ih]

theorem pipeline_tail_sep (stages : List (List String)) :
    ∃ sep rest, pipeline_tail stages = sep :: rest ∧
      (sep = Token.null ∨ sep = Token.T_PIPE) ∧ rest = pipeline_tokens stages := by
  cases stages with
  | nil => exact ⟨Token.null, [], rfl, Or.inl rfl, rfl⟩
  | cons s rest => exact ⟨Token.T_PIPE, _, rfl, Or.inr rfl, rfl⟩

/-- One turn of the loop of `do_pipeline` on a stage of words, once the job is
registered in slot `k` (or, with `first`, when it is about to be). -/
theorem do_pipeline_loop_step (bg : Bool) (fuel : Nat) (sh : Shell) (ws : List String)
    (sep : Token) (rest : List Token) (hsep : sep = Token.null ∨ sep = Token.T_PIPE)
    (hws : ws ≠ []) (pgid job : Int) (pid : Int) (forks : List Int) (cs : List Call) :
    do_pipeline_loop bg (fuel + 1) sh (ws.map Token.word ++ sep :: rest)
        ((ws.length : Int) + (rest.length : Int)) pgid job (pid :: forks) cs =
      match (if job = -1 then
          match addjob sh pid (ofBool bg) with
          | .error e => Except.error e
          | .ok (j, sh1) => Except.ok (pid, j, sh1)
        else Except.ok (pgid, job, sh) : Except Fault (Int × Int × Shell)) with
      | .error e => .error e
      | .ok (pgid1, job1, sh1) =>
        match addproc sh1.jobs job1 pid ws with
        | .error e => .error e
        | .ok jobs2 =>
          do_pipeline_loop bg fuel { sh1 with jobs := jobs2 } rest
            ((rest.length : Int) - 1) pgid1 job1 forks
            (cs ++ [Call.fork pid pgid, Call.setpgid pid pgid1]
              ++ (if bg = false then [Call.setfgpgrp pgid1] else [])) := by
  have hlen : 0 < ws.length := List.length_pos.mpr hws
  have hnt : (ws.length : Int) + (rest.length : Int) > 0 := by omega
  have hsl := stage_len_words ((ws.length : Int) + (rest.length : Int)) sep rest hsep ws 0
    (by push_cast; omega)
  have hn : ¬ ws.length = 0 := by omega
  have hdrop : (ws.map Token.word ++ Token.null :: rest).drop (ws.length + 1) = rest := by
    have hl : (ws.map Token.word).length = ws.length := by simp
    rw [List.drop_append_eq_append_drop]
    simp [hl]
  have hsub : (ws.length : Int) + (rest.length : Int) - (((ws.length : Nat) : Int) + 1) =
      (rest.length : Int) - 1 := by omega
  simp only [do_pipeline_loop, hnt, if_true, Nat.zero_add] at hsl ⊢
  simp only [hsl, do_redir_words, hn, if_false, Fork, argv_words, hdrop, hsub]

theorem pipeline_tokens_length (ws : List String) (stages : List (List String)) :
    (pipeline_tokens (ws :: stages)).length = ws.length + 1 + (pipeline_tokens stages).length := by
  obtain ⟨sep, rest, h, _, hrest⟩ := pipeline_tail_sep stages
  simp [pipeline_tokens, h, hrest]
  omega

/-- The loop of `do_pipeline` over the stages that follow the first one: the
job is in slot `k`, and the loop adds the processes as `addprocs` does. -/
theorem do_pipeline_loop_rest (bg : Bool) (k : Nat) (pgid : Int) :
    ∀ (st : List (Int × List String)) (fuel : Nat) (sh : Shell) (more : List Int)
      (cs : List Call) (jobs' : List Job),
      (∀ c ∈ st, c.2 ≠ []) →
      addprocs sh.jobs (k : Int) st = .ok jobs' →
      (pipeline_tokens (st.map Prod.snd)).length ≤ fuel + 1 →
      do_pipeline_loop bg fuel sh (pipeline_tokens (st.map Prod.snd))
          (((pipeline_tokens (st.map Prod.snd)).length : Int) - 1) pgid (k : Int)
          (st.map Prod.fst ++ more) cs =
        .ok ({ sh with jobs := jobs' }, (k : Int),
          cs ++ st.flatMap (fun c => stage_calls bg pgid pgid c.1), true) := by
  intro st
  induction st with
  | nil =>
    intro fuel sh more cs jobs' _ hadd _
    simp only [addprocs, Except.ok.injEq] at hadd
    subst hadd
    cases fuel <;> simp [do_pipeline_loop, pipeline_tokens]
  | cons c rest ih =>
    intro fuel sh more cs jobs' hargs hadd hfuel
    obtain ⟨pid, ws⟩ := c
    have hws : ws ≠ [] := hargs (pid, ws) (by simp)
    obtain ⟨sep, rest_t, htail, hsep, hrest⟩ := pipeline_tail_sep (rest.map Prod.snd)
    have hlen := pipeline_tokens_length ws (rest.map Prod.snd)
    have hwl : 0 < ws.length := List.length_pos.mpr hws
    simp only [List.map_cons] at hfuel hlen ⊢
    obtain ⟨f, rfl⟩ : ∃ f, fuel = f + 1 := ⟨fuel - 1, by omega⟩
    have htok : pipeline_tokens (ws :: rest.map Prod.snd) =
        ws.map Token.word ++ sep :: rest_t := by
      simp [pipeline_tokens, htail]
    have hnt : ((pipeline_tokens (ws :: rest.map Prod.snd)).length : Int) - 1 =
        (ws.length : Int) + (rest_t.length : Int) := by
      rw [htok]
      simp
      omega
    have hk : ¬ ((k : Int) = -1) := by omega
    rw [hnt, htok, List.cons_append,
      do_pipeline_loop_step bg f sh ws sep rest_t hsep hws pgid (k : Int) pid _ cs]
    simp only [hk, if_false]
    simp only [addprocs] at hadd
    cases hproc : addproc sh.jobs (k : Int) pid ws with
    | error e => simp [hproc] at hadd
    | ok jobs1 =>
      simp only [hproc] at hadd
      have hih := ih f { sh with jobs := jobs1 } more
        (cs ++ [Call.fork pid pgid, Call.setpgid pid pgid]
          ++ (if bg = false then [Call.setfgpgrp pgid] else []))
        jobs' (fun c hc => hargs c (by simp [hc])) hadd
        (by rw [← hrest]; rw [hlen, ← hrest] at hfuel; omega)
      rw [← hrest] at hih
      simp only [hih]
      simp [stage_calls, List.append_assoc]

/-- A pipeline that starts with a pipe token: the first stage is empty, the
error is reported, no process is created and the table is as it was. -/
theorem do_pipeline_leading_pipe (sh : Shell) (rest : List Token) (n : Nat) (bg : Bool)
    (forks : List Int) (waits : List (Int × Nat)) (cur : Nat) :
    do_pipeline sh (Token.T_PIPE :: rest) (n + 1) bg forks waits cur =
      .ok { sh := sh,
            calls := [Call.app_error "ERROR: Command line is not well formed!"],
            exitcode := none } := by
  have hn : ((n + 1 : Nat) : Int) > 0 := by omega
  simp [do_pipeline, do_pipeline_loop, hn, stage_len, do_redir, do_redir_loop, app_error]

/-- C15 (where the code departs from it): two command lines with a malformed
stage, run in the background on the initial table, `Fork` returning 10.  For
`a |` (trailing pipe) no error is reported: the loop ends before it reaches
the empty stage, `a` is created and registered in slot 1.  For `a | | b`
(doubled pipe) the error is reported only when the empty second stage is
reached, after `a` has been created and registered in slot 1. -/
theorem do_pipeline_malformed_stage_spawns :
    do_pipeline { jobs := [Job.zero], shell_tmodes := 5, shell_pgrp := 1 }
        [Token.word "a", Token.T_PIPE, Token.null] 2 true [10, 11] [] 0 =
      .ok { sh := { jobs := [Job.zero,
                             { pgid := 10, proc := [⟨10, RUNNING, -1⟩], tmodes := 5,
                               state := RUNNING, command := some "a" }],
                    shell_tmodes := 5, shell_pgrp := 1 },
            calls := [Call.fork 10 0, Call.setpgid 10 10,
                      Call.print "[1] running \x27a\x27\n"],
            exitcode := some 0 } ∧
    do_pipeline { jobs := [Job.zero], shell_tmodes := 5, shell_pgrp := 1 }
        [Token.word "a", Token.T_PIPE, Token.T_PIPE, Token.word "b", Token.null] 4 true
        [10, 11] [] 0 =
      .ok { sh := { jobs := [Job.zero,
                             { pgid := 10, proc := [⟨10, RUNNING, -1⟩], tmodes := 5,
                               state := RUNNING, command := some "a" }],
                    shell_tmodes := 5, shell_pgrp := 1 },
            calls := [Call.fork 10 0, Call.setpgid 10 10,
                      Call.app_error "ERROR: Command line is not well formed!"],
            exitcode := none } := by
  decide

/-- The spawning loop of `do_pipeline` on a pipeline of stages of words, with
`Fork` returning the pids of `st` in turn: `addjob` registers the job for the
first pid, and the table at the end is the one `addprocs` gives. -/
theorem do_pipeline_loop_spawns (sh : Shell) (bg : Bool) (p1 : Int) (s1 : List String)
    (rest : List (Int × List String)) (more : List Int) (k : Nat) (sh0 : Shell)
    (jobs1 : List Job) (hs1 : s1 ≠ []) (hrest : ∀ c ∈ rest, c.2 ≠ [])
    (hadd : addjob sh p1 (ofBool bg) = .ok ((k : Int), sh0))
    (hprocs : addprocs sh0.jobs (k : Int) ((p1, s1) :: rest) = .ok jobs1) :
    do_pipeline_loop bg ((pipeline_tokens (s1 :: rest.map Prod.snd)).length - 1) sh
        (pipeline_tokens (s1 :: rest.map Prod.snd))
        (((pipeline_tokens (s1 :: rest.map Prod.snd)).length - 1 : Nat) : Int) 0 (-1)
        (p1 :: rest.map Prod.fst ++ more) [] =
      .ok ({ sh0 with jobs := jobs1 }, (k : Int),
        stage_calls bg p1 0 p1 ++ rest.flatMap (fun c => stage_calls bg p1 p1 c.1), true) := by
  obtain ⟨sep, rest_t, htail, hsep, hrt⟩ := pipeline_tail_sep (rest.map Prod.snd)
  have hwl : 0 < s1.length := List.length_pos.mpr hs1
  have htok : pipeline_tokens (s1 :: rest.map Prod.snd) =
      s1.map Token.word ++ sep :: rest_t := by
    simp [pipeline_tokens, htail]
  have hlen : (pipeline_tokens (s1 :: rest.map Prod.snd)).length - 1 =
      (s1.length + rest_t.length - 1) + 1 := by
    rw [htok]
    simp
    omega
  have hnt : (((s1.length + rest_t.length - 1) + 1 : Nat) : Int) =
      (s1.length : Int) + (rest_t.length : Int) := by omega
  rw [hlen, hnt, htok, List.cons_append,
    do_pipeline_loop_step bg _ sh s1 sep rest_t hsep hs1 0 (-1) p1 _ []]
  simp only [if_true, hadd]
  simp only [addprocs] at hprocs
  cases hproc : addproc sh0.jobs (k : Int) p1 s1 with
  | error e => simp [hproc] at hprocs
  | ok jobs2 =>
    simp only [hproc] at hprocs
    have hloop := do_pipeline_loop_rest bg k p1 rest (s1.length + rest_t.length - 1)
      { sh0 with jobs := jobs2 } more
      ([] ++ [Call.fork p1 0, Call.setpgid p1 p1]
        ++ (if bg = false then [Call.setfgpgrp p1] else []))
      jobs1 hrest hprocs (by rw [← hrt]; omega)
    rw [← hrt] at hloop
    simp only [hloop]
    simp [stage_calls]

theorem jobcmd_set (jobs : List Job) (k : Nat) (job : Job) (h : k < jobs.length) :
    jobcmd (jobs.set k job) (k : Int) = .ok job.command := by
  have hget : (jobs.set k job)[k]? = some job := by simp [h]
  simp [jobcmd, jobAt_nat _ k job hget, h]

/-- Stages without redirections: a pipeline of stages of words separated by
pipe tokens (two stages or more, and also one), on a table with at least slot 0, with `Fork` returning
the pids of `(p1, s1) :: rest` from left to right.  `do_pipeline` registers
one job, in the slot `k` that `addjob` yields: its pgid is `p1`, the pid of
the first stage, and its processes are the pids in the order of the stages;
the rest of the table is as `addjob` left it.  For every stage the shell calls
`setpgid(pid, p1)`; the child of the first stage asks for its own group (0),
which is `p1`, and the children of the later stages ask for `p1`.  In the
background this is the table `do_pipeline` ends with; in the foreground it is
the table handed to `monitorjob`. -/
theorem do_pipeline_registers_one_job (sh : Shell) (bg : Bool) (p1 : Int) (s1 : List String)
    (rest : List (Int × List String)) (more : List Int) (waits : List (Int × Nat)) (cur : Nat)
    (hne : sh.jobs ≠ []) (hs1 : s1 ≠ []) (hrest : ∀ c ∈ rest, c.2 ≠ []) :
    ∃ (k : Nat) (sh0 sh1 : Shell) (calls : List Call),
      addjob sh p1 (ofBool bg) = .ok ((k : Int), sh0) ∧
      sh1 = { sh0 with
        jobs := sh0.jobs.set k
          { pgid := p1,
            proc := ((p1, s1) :: rest).map
              (fun c => { pid := c.1, state := RUNNING, exitcode := -1 }),
            tmodes := sh.shell_tmodes, state := RUNNING,
            command := some (String.intercalate " | "
              (((p1, s1) :: rest).map (fun c => String.intercalate " " c.2))) } } ∧
      calls = stage_calls bg p1 0 p1 ++ rest.flatMap (fun c => stage_calls bg p1 p1 c.1) ∧
      (bg = true →
        do_pipeline sh (pipeline_tokens (s1 :: rest.map Prod.snd))
            ((pipeline_tokens (s1 :: rest.map Prod.snd)).length - 1) bg
            (p1 :: rest.map Prod.fst ++ more) waits cur =
          .ok { sh := sh1,
                calls := calls ++ [Call.print ("[" ++ toString (k : Int) ++ "] running \x27"
                  ++ String.intercalate " | "
                    (((p1, s1) :: rest).map (fun c => String.intercalate " " c.2))
                  ++ "\x27\n")],
                exitcode := some 0 }) ∧
      (bg = false →
        do_pipeline sh (pipeline_tokens (s1 :: rest.map Prod.snd))
            ((pipeline_tokens (s1 :: rest.map Prod.snd)).length - 1) bg
            (p1 :: rest.map Prod.fst ++ more) waits cur =
          match monitorjob sh1 waits cur with
          | .error e => .error e
          | .ok (code, sh2, effects) =>
            .ok { sh := sh2, calls := calls ++ effects.map Call.jobs,
                  exitcode := some code }) := by
  obtain ⟨k, sh0, hadd, hk⟩ := addjob_fresh sh p1 (ofBool bg) hne
  have hlt := getElem?_lt _ _ _ hk
  have hargs : ∀ c ∈ (p1, s1) :: rest, c.2 ≠ [] := by
    intro c hc
    rcases List.mem_cons.mp hc with h | h
    · rw [h]; exact hs1
    · exact hrest c h
  have hprocs := addprocs_none k ((p1, s1) :: rest) sh0.jobs _ hk rfl hargs
  have hnil : ¬ ((p1, s1) :: rest = []) := by simp
  simp only [hnil, if_false, List.nil_append] at hprocs
  have hloop := do_pipeline_loop_spawns sh bg p1 s1 rest more k sh0 _ hs1 hrest hadd hprocs
  refine ⟨k, sh0, _, _, hadd, rfl, rfl, ?_, ?_⟩
  · intro hbg
    subst hbg
    simp only [do_pipeline, hloop, jobcmd_set _ k _ hlt, showstr]
    simp
  · intro hbg
    subst hbg
    simp only [do_pipeline, hloop]
    simp

/-- The pipeline `a | b -x` in the background on the initial table, with
`Fork` returning 10 and 11: one job in slot 1 with the pgid 10 and the
processes 10 and 11. -/
theorem do_pipeline_registers_one_job_witness :
    do_pipeline { jobs := [Job.zero], shell_tmodes := 5, shell_pgrp := 1 }
        [Token.word "a", Token.T_PIPE, Token.word "b", Token.word "-x", Token.null] 4 true
        [10, 11] [] 0 =
      .ok { sh := { jobs := [Job.zero,
                             { pgid := 10, proc := [⟨10, RUNNING, -1⟩, ⟨11, RUNNING, -1⟩],
                               tmodes := 5, state := RUNNING, command := some "a | b -x" }],
                    shell_tmodes := 5, shell_pgrp := 1 },
            calls := [Call.fork 10 0, Call.setpgid 10 10, Call.fork 11 10, Call.setpgid 11 10,
                      Call.print "[1] running \x27a | b -x\x27\n"],
            exitcode := some 0 } := by
  obtain ⟨k, sh0, sh1, calls, hadd, hsh1, hcalls, hbg, _⟩ :=
    do_pipeline_registers_one_job { jobs := [Job.zero], shell_tmodes := 5, shell_pgrp := 1 }
      true 10 ["a"] [(11, ["b", "-x"])] [] [] 0 (by decide) (by decide) (by decide)
  have h0 : addjob { jobs := [Job.zero], shell_tmodes := 5, shell_pgrp := 1 } 10 (ofBool true) =
      .ok (1, { jobs := [Job.zero,
                         { pgid := 10, proc := [], tmodes := 5, state := RUNNING,
                           command := none }],
                shell_tmodes := 5, shell_pgrp := 1 }) := by decide
  rw [h0] at hadd
  simp only [Except.ok.injEq, Prod.mk.injEq] at hadd
  obtain ⟨hk, hsh0⟩ := hadd
  have hk1 : k = 1 := by omega
  subst hk1
  subst hsh0
  have h := hbg rfl
  rw [hsh1, hcalls] at h
  exact h

/-- C16 (where the code departs from it): two pipelines of two non-empty
stages in which a stage begins with a redirection, `< in cat | wc` and
`a | < in b`, run on the initial table with `Fork` returning 10 and 11.
`do_redir` counts one word for the stage `< in cat` but leaves `NULL` at its
first token, so the argument vector that `do_stage` hands on and that
`addproc` gives to `mkcommand` is empty and `strapp` reads through a null
pointer: no job with the processes 10 and 11 is registered. -/
theorem do_pipeline_faults_on_leading_redirection :
    do_redir [Token.T_INPUT, Token.word "in", Token.word "cat", Token.T_PIPE,
              Token.word "wc", Token.null] 3 none none =
      .ok (1, [Token.null, Token.null, Token.word "cat", Token.T_PIPE, Token.word "wc",
               Token.null], some (Token.word "in"), none) ∧
    do_pipeline { jobs := [Job.zero], shell_tmodes := 5, shell_pgrp := 1 }
        [Token.T_INPUT, Token.word "in", Token.word "cat", Token.T_PIPE, Token.word "wc",
         Token.null] 5 true [10, 11] [] 0 = .error Fault.outOfBounds ∧
    do_pipeline { jobs := [Job.zero], shell_tmodes := 5, shell_pgrp := 1 }
        [Token.word "a", Token.T_PIPE, Token.T_INPUT, Token.word "in", Token.word "b",
         Token.null] 5 true [10, 11] [] 0 = .error Fault.outOfBounds := by
  decide

/-! ## `do_job` -/

/-- What `do_job` returns for a foreground command that is not built in: the
negative value `builtin_command` returned, whatever the wait results are. -/
theorem do_job_exitcode (sh : Shell) (token : List Token) (ntokens : Nat) (builtin : Int)
    (setpgid_ok : Bool) (forks : List Int) (waits : List (Int × Nat)) (cur : Nat)
    (out : Outcome) (hb : builtin < 0)
    (h : do_job sh token ntokens false builtin setpgid_ok forks waits cur = .ok out) :
    out.exitcode = none ∨ out.exitcode = some builtin := by
  have hnb : ¬ builtin ≥ 0 := by omega
  unfold do_job at h
  repeat' split at h
  all_goals try dsimp only at h
  all_goals first
    | (cases h; done)
    | (cases h
       first
        | exact absurd rfl (by assumption : ¬ false = false)
        | exact absurd (by assumption : _ ∧ builtin ≥ 0).2 hnb
        | (left; rfl)
        | (right; rfl))

/-- C17 (where the code departs from it): the foreground command `sh -c "exit
7"`, not built in (`builtin_command` returns -1), with `Fork` returning 10 and
the process exiting with status 7 (wait status 1792).  `monitorjob` resolves
the exit status 7 for the job, but `do_job` does not keep what `monitorjob`
returns: it returns the -1 of `builtin_command`.  It returns the same -1 when
the process exits with status 0.  `do_pipeline` keeps the status: the
foreground pipeline `a | b` whose last stage exits with status 7 returns 7. -/
theorem do_job_drops_monitor_status :
    do_job { jobs := [Job.zero], shell_tmodes := 5, shell_pgrp := 1 }
        [Token.word "sh", Token.word "-c", Token.word "exit 7", Token.null] 3 false (-1) true
        [10] [(10, 1792)] 9 =
      .ok { sh := { jobs := [{ pgid := 0, proc := [], tmodes := 9, state := FINISHED,
                               command := none }],
                    shell_tmodes := 5, shell_pgrp := 1 },
            calls := [Call.fork 10 0, Call.setpgid 10 10, Call.setfgpgrp 10,
                      Call.jobs (Effect.setfgpgrp 1), Call.jobs (Effect.tcsetattr 5)],
            exitcode := some (-1) } ∧
    monitorjob { jobs := [{ pgid := 10, proc := [⟨10, RUNNING, -1⟩], tmodes := 5,
                            state := RUNNING, command := some "sh -c exit 7" }],
                 shell_tmodes := 5, shell_pgrp := 1 } [(10, 1792)] 9 =
      .ok (7, { jobs := [{ pgid := 0, proc := [], tmodes := 9, state := FINISHED,
                           command := none }],
                shell_tmodes := 5, shell_pgrp := 1 },
           [Effect.setfgpgrp 1, Effect.tcsetattr 5]) ∧
    (do_job { jobs := [Job.zero], shell_tmodes := 5, shell_pgrp := 1 }
        [Token.word "true", Token.null] 1 false (-1) true [10] [(10, 0)] 9).map
      Outcome.exitcode = .ok (some (-1)) ∧
    (do_pipeline { jobs := [Job.zero], shell_tmodes := 5, shell_pgrp := 1 }
        [Token.word "a", Token.T_PIPE, Token.word "b", Token.null] 3 false [10, 11]
        [(10, 0), (11, 1792)] 9).map Outcome.exitcode = .ok (some 7) := by
  decide

/-! ## The invariant of free slots -/

theorem free_slots_set (jobs : List Job) (k : Nat) (job : Job)
    (h : free_slots_empty jobs) (hjob : slot_ok job) : free_slots_empty (jobs.set k job) := by
  intro x hx
  rcases List.mem_or_eq_of_mem_set hx with h1 | h1
  · exact h x h1
  · rw [h1]; exact hjob

theorem slot_ok_zero : slot_ok Job.zero := fun _ => ⟨rfl, rfl⟩

theorem free_slots_setJob (jobs jobs' : List Job) (j : Int) (job : Job)
    (h : free_slots_empty jobs) (hjob : slot_ok job) (hset : setJob jobs j job = .ok jobs') :
    free_slots_empty jobs' := by
  unfold setJob at hset
  split at hset
  · cases hset
    exact free_slots_set jobs _ job h hjob
  · cases hset

theorem slot_ok_jobAt (jobs : List Job) (j : Int) (job : Job)
    (h : free_slots_empty jobs) (hj : jobAt jobs j = .ok job) : slot_ok job := by
  unfold jobAt at hj
  split at hj
  · cases hj
  · split at hj
    · cases hj
      exact h _ (List.getElem?_mem (by assumption))
    · cases hj

theorem free_slots_allocjob (jobs : List Job) (h : free_slots_empty jobs) :
    free_slots_empty (allocjob jobs).2 := by
  unfold allocjob
  split
  · exact h
  · intro x hx
    rcases List.mem_append.mp hx with h1 | h1
    · exact h x h1
    · simp at h1
      rw [h1]; exact slot_ok_zero

theorem slot_ok_deljob (job job' : Job) (h : deljob job = .ok job') : slot_ok job' := by
  unfold deljob at h
  split at h
  · cases h
    intro _
    exact ⟨rfl, rfl⟩
  · cases h

theorem free_slots_movejob (jobs jobs' : List Job) (src dst : Int)
    (h : free_slots_empty jobs) (hm : movejob jobs src dst = .ok jobs') :
    free_slots_empty jobs' := by
  unfold movejob at hm
  split at hm
  · cases hm
  · split at hm
    · cases hm
    · split at hm
      · cases hm
      · rename_i job hjob
        split at hm
        · cases hm
        · rename_i jobs1 hset
          exact free_slots_setJob jobs1 jobs' src Job.zero
            (free_slots_setJob jobs jobs1 dst job h (slot_ok_jobAt jobs src job h hjob) hset)
            slot_ok_zero hm

theorem free_slots_jobstate (jobs jobs' : List Job) (j status state code : Int)
    (h : free_slots_empty jobs) (hs : jobstate jobs j status = .ok (state, code, jobs')) :
    free_slots_empty jobs' := by
  unfold jobstate at hs
  split at hs
  · cases hs
  · split at hs
    · cases hs
    · split at hs
      · split at hs
        · cases hs
        · split at hs
          · cases hs
          · rename_i job' hdel
            split at hs
            · cases hs
            · rename_i jobs2 hset
              cases hs
              exact free_slots_setJob jobs _ j job' h (slot_ok_deljob _ _ hdel) hset
      · cases hs
        exact h

theorem slot_ok_updatejob (mark : Proc → Proc) (job job' : Job) (pid : Int)
    (h : slot_ok job) (hu : updatejob mark job pid = some job') : slot_ok job' := by
  obtain ⟨k, p, hk, _, hjob'⟩ := updatejob_some_inv mark job job' pid hu
  subst hjob'
  intro hpg
  have hnil := (h hpg).1
  rw [hnil] at hk
  simp at hk

theorem slot_ok_fgwait (waits : List (Int × Nat)) :
    ∀ job : Job, slot_ok job → slot_ok (fgwait job waits) := by
  induction waits with
  | nil => intro job h; exact h
  | cons e rest ih =>
    intro job h
    obtain ⟨pid, status⟩ := e
    unfold fgwait
    split
    · split
      · rename_i job' hu
        exact ih job' (slot_ok_updatejob _ job job' pid h hu)
      · exact ih job h
    · exact h

theorem free_slots_reap (pid : Int) (status : Nat) (jobs : List Job)
    (h : free_slots_empty jobs) : free_slots_empty (reap pid status jobs) := by
  rcases reap_cases pid status jobs with hr | ⟨j, job, job', hj, hu, hr⟩
  · rw [hr]; exact h
  · rw [hr]
    exact free_slots_set jobs j job' h
      (slot_ok_updatejob _ job job' pid (h job (List.getElem?_mem hj)) hu)

theorem free_slots_sigchld_handler (events : List (Int × Nat)) :
    ∀ jobs : List Job, free_slots_empty jobs → free_slots_empty (sigchld_handler jobs events) := by
  induction events with
  | nil => intro jobs h; exact h
  | cons e rest ih =>
    intro jobs h
    obtain ⟨pid, status⟩ := e
    unfold sigchld_handler
    split
    · exact ih _ (free_slots_reap pid status jobs h)
    · exact h

theorem free_slots_addjob (sh sh' : Shell) (pgid bg j : Int) (h : free_slots_empty sh.jobs)
    (hpg : pgid ≠ 0) (ha : addjob sh pgid bg = .ok (j, sh')) : free_slots_empty sh'.jobs := by
  have key : ∀ r : Int × List Job, free_slots_empty r.2 →
      (match setJob r.2 r.1
          { pgid := pgid, state := RUNNING, command := none, proc := [],
            tmodes := sh.shell_tmodes } with
        | .ok jobs => Except.ok (r.1, { sh with jobs := jobs })
        | .error e => Except.error e) = Except.ok (j, sh') →
      free_slots_empty sh'.jobs := by
    intro r hr hm
    split at hm
    · rename_i jobs hset
      cases hm
      exact free_slots_setJob _ jobs _ _ hr (fun h0 => absurd h0 hpg) hset
    · cases hm
  refine key (if bg ≠ 0 then allocjob sh.jobs else (FG, sh.jobs)) ?_ ha
  split
  · exact free_slots_allocjob _ h
  · exact h

theorem free_slots_addproc (jobs jobs' : List Job) (j pid : Int) (job : Job)
    (args : List String) (h : free_slots_empty jobs) (hj : jobAt jobs j = .ok job)
    (hpg : job.pgid ≠ 0) (ha : addproc jobs j pid args = .ok jobs') :
    free_slots_empty jobs' := by
  unfold addproc at ha
  split at ha
  · cases ha
  · rw [hj] at ha
    simp only at ha
    split at ha
    · cases ha
    · refine free_slots_setJob jobs jobs' j _ h ?_ ha
      intro h0
      exact absurd h0 hpg

theorem slot_ok_watchjob (which j : Int) (job job' : Job) (out : List Effect)
    (h : slot_ok job) (hw : watchjob which j job = .ok (job', out)) : slot_ok job' := by
  unfold watchjob at hw
  split at hw
  · cases hw; exact h
  · split at hw
    · split at hw
      · cases hw; exact h
      · split at hw
        · cases hw
        · split at hw
          · cases hw
          · rename_i job2 hdel
            cases hw
            exact slot_ok_deljob _ _ hdel
    · cases hw; exact h

theorem free_slots_watchloop (which : Int) :
    ∀ (rest rest' : List Job) (j : Int) (out : List Effect), free_slots_empty rest →
      watchloop which rest j = .ok (rest', out) → free_slots_empty rest' := by
  intro rest
  induction rest with
  | nil =>
    intro rest' j out _ hw
    simp only [watchloop, Except.ok.injEq, Prod.mk.injEq] at hw
    rw [← hw.1]
    intro x hx
    cases hx
  | cons job rest ih =>
    intro rest' j out h hw
    unfold watchloop at hw
    split at hw
    · cases hw
    · rename_i job' out1 hjob
      split at hw
      · cases hw
      · rename_i rest2 out2 hrest
        cases hw
        intro x hx
        rcases List.mem_cons.mp hx with h1 | h1
        · rw [h1]
          exact slot_ok_watchjob which j job job' out1 (h job (by simp)) hjob
        · exact ih rest2 (j + 1) out2 (fun y hy => h y (by simp [hy])) hrest x h1

theorem free_slots_watchjobs (sh sh' : Shell) (which : Int) (out : List Effect)
    (h : free_slots_empty sh.jobs) (hw : watchjobs sh which = .ok (sh', out)) :
    free_slots_empty sh'.jobs := by
  unfold watchjobs at hw
  split at hw
  · cases hw; exact h
  · rename_i fg rest hjobs
    split at hw
    · cases hw
    · rename_i rest' out' hloop
      cases hw
      rw [hjobs] at h
      intro x hx
      rcases List.mem_cons.mp hx with h1 | h1
      · rw [h1]; exact h fg (by simp)
      · exact free_slots_watchloop which rest rest' BG _ (fun y hy => h y (by simp [hy]))
          hloop x h1

theorem free_slots_monitorjob (sh sh' : Shell) (waits : List (Int × Nat)) (cur : Nat)
    (code : Int) (effects : List Effect) (h : free_slots_empty sh.jobs)
    (hm : monitorjob sh waits cur = .ok (code, sh', effects)) : free_slots_empty sh'.jobs := by
  unfold monitorjob at hm
  split at hm
  · cases hm
  · rename_i fgJob hfg
    have hfg' : slot_ok { fgwait fgJob waits with tmodes := cur } := by
      have := slot_ok_fgwait waits fgJob (slot_ok_jobAt sh.jobs 0 fgJob h hfg)
      exact this
    have hset := free_slots_set sh.jobs 0 _ h hfg'
    dsimp only at hm
    split at hm
    · cases hm
    · rename_i state code1 jobs1 hjs
      have h1 := free_slots_jobstate _ jobs1 0 0 state code1 hset hjs
      split at hm
      · split at hm
        · cases hm
        · rename_i jobs2 hmove
          cases hm
          exact free_slots_movejob _ jobs2 0 _ (free_slots_allocjob jobs1 h1) hmove
      · cases hm
        exact h1

theorem free_slots_resumejob (sh sh' : Shell) (j bg : Int) (waits : List (Int × Nat))
    (cur : Nat) (ok : Bool) (effects : List Effect) (h : free_slots_empty sh.jobs)
    (hr : resumejob sh j bg waits cur = .ok (ok, sh', effects)) :
    free_slots_empty sh'.jobs := by
  unfold resumejob at hr
  split at hr
  · cases hr
  · split at hr
    · cases hr; exact h
    · split at hr
      · cases hr
      · split at hr
        · cases hr; exact h
        · split at hr
          · split at hr
            · cases hr
            · rename_i jobs1 hmove
              have h1 := free_slots_movejob sh.jobs jobs1 _ 0 h hmove
              split at hr
              · cases hr
              · rename_i fg hfg
                have hfg' : slot_ok { fg with state := RUNNING } :=
                  slot_ok_jobAt jobs1 0 fg h1 hfg
                have h2 := free_slots_set jobs1 0 _ h1 hfg'
                dsimp only at hr
                split at hr
                · cases hr
                · rename_i code sh2 eff2 hmon
                  cases hr
                  exact free_slots_monitorjob _ _ waits cur code eff2 h2 hmon
          · cases hr; exact h

/-- C18: every job table reached from the initial table of one slot keeps the
invariant that a slot whose pgid is 0 has no process and no command text.
The tables reached are those of `Reachable`: the invariant holds at the start
and goes through `addjob` (with a pgid other than 0), `addproc` on an occupied
slot (the slot `addjob` returned is one), `deljob`, `movejob`, the growth of
`allocjob`, `jobstate`, `watchjobs`, `monitorjob` with its relocation,
`resumejob` and `sigchld_handler`. -/
theorem reachable_free_slots_empty (jobs : List Job) (h : Reachable jobs) :
    free_slots_empty jobs := by
  induction h with
  | init =>
    intro job hjob
    simp at hjob
    rw [hjob]
    exact slot_ok_zero
  | addjob jobs tmodes pgrp pgid bg j sh' _ hpg ha ih =>
    exact free_slots_addjob _ sh' pgid bg j ih hpg ha
  | addproc jobs jobs' j pid job args _ hj hpg ha ih =>
    exact free_slots_addproc jobs jobs' j pid job args ih hj hpg ha
  | deljob jobs jobs' j job job' _ _ hd hs ih =>
    exact free_slots_setJob jobs jobs' j job' ih (slot_ok_deljob job job' hd) hs
  | movejob jobs jobs' src dst _ hm ih =>
    exact free_slots_movejob jobs jobs' src dst ih hm
  | allocjob jobs _ ih => exact free_slots_allocjob jobs ih
  | jobstate jobs jobs' j status state code _ hs ih =>
    exact free_slots_jobstate jobs jobs' j status state code ih hs
  | watchjobs jobs tmodes pgrp which sh' out _ hw ih =>
    exact free_slots_watchjobs _ sh' which out ih hw
  | monitorjob jobs tmodes pgrp waits cur code sh' effects _ hm ih =>
    exact free_slots_monitorjob _ sh' waits cur code effects ih hm
  | resumejob jobs tmodes pgrp j bg waits cur ok sh' effects _ hr ih =>
    exact free_slots_resumejob _ sh' j bg waits cur ok effects ih hr
  | sigchld_handler jobs events _ ih => exact free_slots_sigchld_handler events jobs ih

/-- The table after a foreground job with one process has stopped and gone to
the background: slot 0 is free and empty. -/
theorem reachable_free_slots_empty_witness :
    free_slots_empty
      [Job.zero,
       { pgid := 10, proc := [⟨10, STOPPED, -1⟩], tmodes := 9, state := STOPPED,
         command := some "vi" }] :=
  reachable_free_slots_empty _
    (Reachable.monitorjob
      [{ pgid := 10, proc := [⟨10, RUNNING, -1⟩], tmodes := 5, state := RUNNING,
         command := some "vi" }] 5 1 [(10, 5247)] 9 0
      { jobs := [Job.zero,
                 { pgid := 10, proc := [⟨10, STOPPED, -1⟩], tmodes := 9, state := STOPPED,
                   command := some "vi" }],
        shell_tmodes := 5, shell_pgrp := 1 }
      [Effect.setfgpgrp 1, Effect.tcsetattr 5]
      (Reachable.addproc
        [{ pgid := 10, proc := [], tmodes := 5, state := RUNNING, command := none }] _ 0 10
        { pgid := 10, proc := [], tmodes := 5, state := RUNNING, command := none } ["vi"]
        (Reachable.addjob [Job.zero] 5 1 10 0 0
          { jobs := [{ pgid := 10, proc := [], tmodes := 5, state := RUNNING,
                       command := none }],
            shell_tmodes := 5, shell_pgrp := 1 }
          Reachable.init (by decide) (by decide))
        (by decide) (by decide) (by decide))
      (by decide))

/-! ## Jobs whose processes do not converge -/

/-- C19 (where the code departs from it): a two-stage pipeline whose first
stage exits (status 0) and whose second stage then stops.  Its only live
process is Stopped, so the job should be Stopped; but both `sigchld_handler`
and the wait loop of `monitorjob` compare the new state with the state of
every process, the Finished one included, and leave the job Running. -/
theorem job_state_ignores_live_processes :
    sigchld_handler
        [Job.zero,
         { pgid := 10, proc := [⟨10, RUNNING, -1⟩, ⟨11, RUNNING, -1⟩], tmodes := 0,
           state := RUNNING, command := some "a | b" }]
        [(10, 0), (11, 5247)] =
      [Job.zero,
       { pgid := 10, proc := [⟨10, FINISHED, 0⟩, ⟨11, STOPPED, -1⟩], tmodes := 0,
         state := RUNNING, command := some "a | b" }] ∧
    fgwait
        { pgid := 10, proc := [⟨10, RUNNING, -1⟩, ⟨11, RUNNING, -1⟩], tmodes := 0,
          state := RUNNING, command := some "a | b" }
        [(10, 0), (11, 5247)] =
      { pgid := 10, proc := [⟨10, FINISHED, 0⟩, ⟨11, STOPPED, -1⟩], tmodes := 0,
        state := RUNNING, command := some "a | b" } := by
  decide

/-- When the wait loop ends with the foreground job still Running, which is
when `waitpid` fails, `monitorjob` returns 0 and leaves the job in slot 0. -/
theorem monitorjob_still_running (sh : Shell) (job : Job) (rest : List Job)
    (waits : List (Int × Nat)) (cur : Nat) (hjobs : sh.jobs = job :: rest)
    (hrun : (fgwait job waits).state = RUNNING) :
    monitorjob sh waits cur =
      .ok (0, { sh with jobs := { fgwait job waits with tmodes := cur } :: rest },
           [Effect.setfgpgrp sh.shell_pgrp, Effect.tcsetattr sh.shell_tmodes]) := by
  have h1 : ¬ RUNNING = FINISHED := by decide
  have h2 : ¬ RUNNING = STOPPED := by decide
  simp [monitorjob, hjobs, jobAt, jobstate, hrun, h1, h2]

/-- C20 (where the code departs from it): the foreground job of group 10 is
Running and `waitpid` fails at once (no wait result).  `monitorjob` returns 0
and slot 0 still holds the job of group 10.  The next foreground command, of
group 20, is then registered by `addjob` in the same slot 0, over the record
of group 10, whose process is still running. -/
theorem monitorjob_leaves_running_job_in_slot_0 :
    monitorjob
        { jobs := [{ pgid := 10, proc := [⟨10, RUNNING, -1⟩], tmodes := 5, state := RUNNING,
                     command := some "a" }],
          shell_tmodes := 5, shell_pgrp := 1 } [] 9 =
      .ok (0,
           { jobs := [{ pgid := 10, proc := [⟨10, RUNNING, -1⟩], tmodes := 9,
                        state := RUNNING, command := some "a" }],
             shell_tmodes := 5, shell_pgrp := 1 },
           [Effect.setfgpgrp 1, Effect.tcsetattr 5]) ∧
    addjob
        { jobs := [{ pgid := 10, proc := [⟨10, RUNNING, -1⟩], tmodes := 9, state := RUNNING,
                     command := some "a" }],
          shell_tmodes := 5, shell_pgrp := 1 } 20 0 =
      .ok (0,
           { jobs := [{ pgid := 20, proc := [], tmodes := 5, state := RUNNING,
                        command := none }],
             shell_tmodes := 5, shell_pgrp := 1 }) := by
  decide

/-! ## Properties kept by every operation -/

theorem kept_set (P : Job → Prop) (jobs : List Job) (k : Nat) (job : Job)
    (h : ∀ x ∈ jobs, P x) (hjob : P job) : ∀ x ∈ jobs.set k job, P x := by
  intro x hx
  rcases List.mem_or_eq_of_mem_set hx with h1 | h1
  · exact h x h1
  · rw [h1]; exact hjob

theorem kept_setJob (P : Job → Prop) (jobs jobs' : List Job) (j : Int) (job : Job)
    (h : ∀ x ∈ jobs, P x) (hjob : P job) (hset : setJob jobs j job = .ok jobs') :
    ∀ x ∈ jobs', P x := by
  unfold setJob at hset
  split at hset
  · cases hset
    exact kept_set P jobs _ job h hjob
  · cases hset

theorem kept_jobAt (P : Job → Prop) (jobs : List Job) (j : Int) (job : Job)
    (h : ∀ x ∈ jobs, P x) (hj : jobAt jobs j = .ok job) : P job := by
  unfold jobAt at hj
  split at hj
  · cases hj
  · split at hj
    · cases hj
      exact h _ (List.getElem?_mem (by assumption))
    · cases hj

theorem kept_allocjob (P : Job → Prop) (hP : Kept P) (jobs : List Job)
    (h : ∀ x ∈ jobs, P x) : ∀ x ∈ (allocjob jobs).2, P x := by
  unfold allocjob
  split
  · exact h
  · intro x hx
    rcases List.mem_append.mp hx with h1 | h1
    · exact h x h1
    · simp at h1
      rw [h1]; exact hP.zero

theorem kept_movejob (P : Job → Prop) (hP : Kept P) (jobs jobs' : List Job) (src dst : Int)
    (h : ∀ x ∈ jobs, P x) (hm : movejob jobs src dst = .ok jobs') : ∀ x ∈ jobs', P x := by
  unfold movejob at hm
  split at hm
  · cases hm
  · split at hm
    · cases hm
    · split at hm
      · cases hm
      · rename_i job hjob
        split at hm
        · cases hm
        · rename_i jobs1 hset
          exact kept_setJob P jobs1 jobs' src Job.zero
            (kept_setJob P jobs jobs1 dst job h (kept_jobAt P jobs src job h hjob) hset)
            hP.zero hm

theorem kept_jobstate (P : Job → Prop) (hP : Kept P) (jobs jobs' : List Job)
    (j status state code : Int) (h : ∀ x ∈ jobs, P x)
    (hs : jobstate jobs j status = .ok (state, code, jobs')) : ∀ x ∈ jobs', P x := by
  unfold jobstate at hs
  split at hs
  · cases hs
  · split at hs
    · cases hs
    · rename_i job hjob
      split at hs
      · split at hs
        · cases hs
        · split at hs
          · cases hs
          · rename_i job' hdel
            split at hs
            · cases hs
            · rename_i jobs2 hset
              cases hs
              exact kept_setJob P jobs _ j job' h
                (hP.deljob job job' (kept_jobAt P jobs j job h hjob) hdel) hset
      · cases hs
        exact h

theorem kept_fgwait (P : Job → Prop) (hP : Kept P) (waits : List (Int × Nat)) :
    ∀ job : Job, P job → P (fgwait job waits) := by
  induction waits with
  | nil => intro job h; exact h
  | cons e rest ih =>
    intro job h
    obtain ⟨pid, status⟩ := e
    unfold fgwait
    split
    · split
      · rename_i job' hu
        exact ih job' (hP.update _ job job' pid h hu)
      · exact ih job h
    · exact h

theorem kept_sigchld_handler (P : Job → Prop) (hP : Kept P) (events : List (Int × Nat)) :
    ∀ jobs : List Job, (∀ x ∈ jobs, P x) → ∀ x ∈ sigchld_handler jobs events, P x := by
  induction events with
  | nil => intro jobs h; exact h
  | cons e rest ih =>
    intro jobs h
    obtain ⟨pid, status⟩ := e
    unfold sigchld_handler
    split
    · apply ih
      rcases reap_cases pid status jobs with hr | ⟨j, job, job', hj, hu, hr⟩
      · rw [hr]; exact h
      · rw [hr]
        exact kept_set P jobs j job' h (hP.update _ job job' pid (h job (List.getElem?_mem hj)) hu)
    · exact h

theorem kept_addjob (P : Job → Prop) (hP : Kept P) (sh sh' : Shell) (pgid bg j : Int)
    (h : ∀ x ∈ sh.jobs, P x) (hpg : pgid ≠ 0) (ha : addjob sh pgid bg = .ok (j, sh')) :
    ∀ x ∈ sh'.jobs, P x := by
  have key : ∀ r : Int × List Job, (∀ x ∈ r.2, P x) →
      (match setJob r.2 r.1
          { pgid := pgid, state := RUNNING, command := none, proc := [],
            tmodes := sh.shell_tmodes } with
        | .ok jobs => Except.ok (r.1, { sh with jobs := jobs })
        | .error e => Except.error e) = Except.ok (j, sh') →
      ∀ x ∈ sh'.jobs, P x := by
    intro r hr hm
    split at hm
    · rename_i jobs hset
      cases hm
      exact kept_setJob P _ jobs _ _ hr (hP.fresh pgid sh.shell_tmodes hpg) hset
    · cases hm
  refine key (if bg ≠ 0 then allocjob sh.jobs else (FG, sh.jobs)) ?_ ha
  split
  · exact kept_allocjob P hP _ h
  · exact h

theorem kept_addproc (P : Job → Prop) (hP : Kept P) (jobs jobs' : List Job) (j pid : Int)
    (job : Job) (args : List String) (h : ∀ x ∈ jobs, P x) (hj : jobAt jobs j = .ok job)
    (hpg : job.pgid ≠ 0) (ha : addproc jobs j pid args = .ok jobs') : ∀ x ∈ jobs', P x := by
  unfold addproc at ha
  split at ha
  · cases ha
  · rw [hj] at ha
    simp only at ha
    split at ha
    · cases ha
    · refine kept_setJob P jobs jobs' j _ h ?_ ha
      exact hP.addproc job _ _ hpg (kept_jobAt P jobs j job h hj)

theorem kept_watchjob (P : Job → Prop) (hP : Kept P) (which j : Int) (job job' : Job)
    (out : List Effect) (h : P job) (hw : watchjob which j job = .ok (job', out)) : P job' := by
  unfold watchjob at hw
  split at hw
  · cases hw; exact h
  · split at hw
    · split at hw
      · cases hw; exact h
      · split at hw
        · cases hw
        · split at hw
          · cases hw
          · rename_i job2 hdel
            cases hw
            exact hP.deljob _ _ h hdel
    · cases hw; exact h

theorem kept_watchloop (P : Job → Prop) (hP : Kept P) (which : Int) :
    ∀ (rest rest' : List Job) (j : Int) (out : List Effect), (∀ x ∈ rest, P x) →
      watchloop which rest j = .ok (rest', out) → ∀ x ∈ rest', P x := by
  intro rest
  induction rest with
  | nil =>
    intro rest' j out _ hw
    simp only [watchloop, Except.ok.injEq, Prod.mk.injEq] at hw
    rw [← hw.1]
    intro x hx
    cases hx
  | cons job rest ih =>
    intro rest' j out h hw
    unfold watchloop at hw
    split at hw
    · cases hw
    · rename_i job' out1 hjob
      split at hw
      · cases hw
      · rename_i rest2 out2 hrest
        cases hw
        intro x hx
        rcases List.mem_cons.mp hx with h1 | h1
        · rw [h1]
          exact kept_watchjob P hP which j job job' out1 (h job (by simp)) hjob
        · exact ih rest2 (j + 1) out2 (fun y hy => h y (by simp [hy])) hrest x h1

theorem kept_watchjobs (P : Job → Prop) (hP : Kept P) (sh sh' : Shell) (which : Int)
    (out : List Effect) (h : ∀ x ∈ sh.jobs, P x) (hw : watchjobs sh which = .ok (sh', out)) :
    ∀ x ∈ sh'.jobs, P x := by
  unfold watchjobs at hw
  split at hw
  · cases hw; exact h
  · rename_i fg rest hjobs
    split at hw
    · cases hw
    · rename_i rest' out' hloop
      cases hw
      rw [hjobs] at h
      intro x hx
      rcases List.mem_cons.mp hx with h1 | h1
      · rw [h1]; exact h fg (by simp)
      · exact kept_watchloop P hP which rest rest' BG _ (fun y hy => h y (by simp [hy]))
          hloop x h1

theorem kept_monitorjob (P : Job → Prop) (hP : Kept P) (sh sh' : Shell)
    (waits : List (Int × Nat)) (cur : Nat) (code : Int) (effects : List Effect)
    (h : ∀ x ∈ sh.jobs, P x) (hm : monitorjob sh waits cur = .ok (code, sh', effects)) :
    ∀ x ∈ sh'.jobs, P x := by
  unfold monitorjob at hm
  split at hm
  · cases hm
  · rename_i fgJob hfg
    have hfg' : P { fgwait fgJob waits with tmodes := cur } :=
      hP.tmodes _ cur (kept_fgwait P hP waits fgJob (kept_jobAt P sh.jobs 0 fgJob h hfg))
    have hset := kept_set P sh.jobs 0 _ h hfg'
    dsimp only at hm
    split at hm
    · cases hm
    · rename_i state code1 jobs1 hjs
      have h1 := kept_jobstate P hP _ jobs1 0 0 state code1 hset hjs
      split at hm
      · split at hm
        · cases hm
        · rename_i jobs2 hmove
          cases hm
          exact kept_movejob P hP _ jobs2 0 _ (kept_allocjob P hP jobs1 h1) hmove
      · cases hm
        exact h1

theorem kept_resumejob (P : Job → Prop) (hP : Kept P) (sh sh' : Shell) (j bg : Int)
    (waits : List (Int × Nat)) (cur : Nat) (ok : Bool) (effects : List Effect)
    (h : ∀ x ∈ sh.jobs, P x) (hr : resumejob sh j bg waits cur = .ok (ok, sh', effects)) :
    ∀ x ∈ sh'.jobs, P x := by
  unfold resumejob at hr
  split at hr
  · cases hr
  · split at hr
    · cases hr; exact h
    · split at hr
      · cases hr
      · split at hr
        · cases hr; exact h
        · split at hr
          · split at hr
            · cases hr
            · rename_i jobs1 hmove
              have h1 := kept_movejob P hP sh.jobs jobs1 _ 0 h hmove
              split at hr
              · cases hr
              · rename_i fg hfg
                have hfg' : P { fg with state := RUNNING } :=
                  hP.running fg (kept_jobAt P jobs1 0 fg h1 hfg)
                have h2 := kept_set P jobs1 0 _ h1 hfg'
                dsimp only at hr
                split at hr
                · cases hr
                · rename_i code sh2 eff2 hmon
                  cases hr
                  exact kept_monitorjob P hP _ _ waits cur code eff2 h2 hmon
          · cases hr; exact h

/-- A property kept by every operation holds of every job of every table the
shell can reach. -/
theorem reachable_kept (P : Job → Prop) (hP : Kept P) (jobs : List Job) (h : Reachable jobs) :
    ∀ x ∈ jobs, P x := by
  induction h with
  | init =>
    intro job hjob
    simp at hjob
    rw [hjob]
    exact hP.zero
  | addjob jobs tmodes pgrp pgid bg j sh' _ hpg ha ih =>
    exact kept_addjob P hP _ sh' pgid bg j ih hpg ha
  | addproc jobs jobs' j pid job args _ hj hpg ha ih =>
    exact kept_addproc P hP jobs jobs' j pid job args ih hj hpg ha
  | deljob jobs jobs' j job job' _ hj hd hs ih =>
    exact kept_setJob P jobs jobs' j job' ih (hP.deljob job job' (kept_jobAt P jobs j job ih hj) hd)
      hs
  | movejob jobs jobs' src dst _ hm ih => exact kept_movejob P hP jobs jobs' src dst ih hm
  | allocjob jobs _ ih => exact kept_allocjob P hP jobs ih
  | jobstate jobs jobs' j status state code _ hs ih =>
    exact kept_jobstate P hP jobs jobs' j status state code ih hs
  | watchjobs jobs tmodes pgrp which sh' out _ hw ih =>
    exact kept_watchjobs P hP _ sh' which out ih hw
  | monitorjob jobs tmodes pgrp waits cur code sh' effects _ hm ih =>
    exact kept_monitorjob P hP _ sh' waits cur code effects ih hm
  | resumejob jobs tmodes pgrp j bg waits cur ok sh' effects _ hr ih =>
    exact kept_resumejob P hP _ sh' j bg waits cur ok effects ih hr
  | sigchld_handler jobs events _ ih => exact kept_sigchld_handler P hP events jobs ih

theorem kept_finished_has_process : Kept finished_has_process where
  zero := fun h => absurd rfl h
  fresh := fun _ _ _ _ h => absurd h (show ¬ RUNNING = FINISHED by decide)
  addproc := fun job p cmd _ _ _ _ => by simp
  deljob := fun job job' _ hd => by
    unfold deljob at hd
    split at hd
    · cases hd
      intro h
      exact absurd rfl h
    · cases hd
  update := fun mark job job' pid _ hu => by
    intro _ _ hnil
    obtain ⟨k, p, hk, _, hjob'⟩ := updatejob_some_inv mark job job' pid hu
    have hlt := getElem?_lt _ _ _ hk
    rw [hjob'] at hnil
    simp only at hnil
    have hlen : (job.proc.set k (mark p)).length = 0 := by rw [hnil]; rfl
    rw [List.length_set] at hlen
    omega
  tmodes := fun job cur h => h
  running := fun job _ _ h => absurd h (show ¬ RUNNING = FINISHED by decide)

/-- In every table the shell can reach, an occupied slot whose job is Finished
has at least one process. -/
theorem reachable_finished_has_process (jobs : List Job) (h : Reachable jobs) :
    ∀ job ∈ jobs, job.pgid ≠ 0 → job.state = FINISHED → job.proc ≠ [] :=
  reachable_kept finished_has_process kept_finished_has_process jobs h

end SimpleShell
